import Mathlib

/-!
Verification of the EarthquakeCLI terminal earthquake monitor.

This file gives a shallow embedding of the program's core logic
("src/main.go", identifier-aware variant):

* the GeoJSON data model (`geoJson`, `geoJsonFeature`, ...);
* the display table (`Table`, a list of rows of `TableCell`s, row 0 being
  the header) and the insert-or-update routine `addRowT` (Go `addRow`);
* the reconciliation routine `getQuakeList`, including its in-place
  feature-list reversal (`revLoop`) and the event store update;
* a control-flow model of the fetch routine `getUsgsGeoStats`.

Modelling conventions:
* Go `float64`/`float32` magnitudes are modelled as exact rationals `ℚ`.
  `strconv.ParseFloat(s, 32)` is modelled by `parseFloatGo`, which parses
  plain decimal notation (optional sign, digits, optional fraction,
  optional decimal exponent) exactly; the float32 rounding step is omitted.
  Rounding to float32 is monotone and the color thresholds 4, 5.99, 6,
  6.99, 7 are fixed, so on every magnitude inside one of the claimed color
  bands the exact-rational comparison agrees with the float comparison the
  code performs.  Special float syntax (Inf, NaN, hex) is treated as a
  parse failure.
* Go `time.Parse(TIMEFORMAT, s)` with `TIMEFORMAT = "Jan/02/15:04:05/MST"`
  is modelled by `parseGoTime`, which accepts the canonical zero-padded
  rendering of that pattern.  The pattern has no year, so Go resolves
  parsed times in year 0; a failed parse yields Go's zero `time.Time`,
  which lies in year 1 and hence compares strictly after every
  successfully parsed time.  `goTimeVal` maps a parse result to absolute
  seconds from the start of year 0 (a leap year, 366 days), with a failed
  parse mapping to `31622400 = 366*86400`, the first second of year 1.
  Zone abbreviations are modelled with offset zero, matching Go's
  fabricated zero-offset zone for unknown abbreviations.
* `time.Unix(ms/1000, 0).Format(...)` renders in the local zone; the model
  renders in UTC (`formatGoTime`).  No claim depends on the zone choice.
* tview's `Table` is modelled by `Table`; `InsertRow` is `insertAt`,
  `SetCell` over all five columns of one row is `List.set` with a fully
  rebuilt row (`rowCells`), exactly as `addRow` rebuilds every cell.
-/

/-- Cell colors used by the program (tcell colors). -/
inductive GoColor where
  | green
  | yellow
  | orange
  | red
  | darkCyan
deriving DecidableEq

/-- Cell alignment (tview alignment). -/
inductive GoAlign where
  | center
  | left
deriving DecidableEq

/-- One tview table cell, with the fields `addRow` sets. -/
structure TableCell where
  text : String
  color : GoColor
  align : GoAlign
  notSelectable : Bool
deriving DecidableEq

/-- The metadata block of the USGS GeoJSON document. -/
structure geoJsonMetadata where
  generated : Int
  url : String
  title : String
  api : String
  count : Int
  status : Int
deriving DecidableEq

/-- The properties block of one feature; floats are modelled as `ℚ`. -/
structure geoJsonProperties where
  mag : ℚ
  place : String
  time : Int
  updated : Int
  tz : Int
  url : String
  detail : String
  felt : Int
  cdi : ℚ
  mmi : ℚ
  alert : String
  status : String
  tsunami : Int
  sig : Int
  net : String
  code : String
  ids : String
  sources : String
  types : String
  nst : Int
  dmin : ℚ
  rms : ℚ
  gap : ℚ
  magType : String
  typ : String
  title : String
deriving DecidableEq

/-- The geometry block of one feature. -/
structure geoJsonGeometry where
  typ : String
  coordinates : List ℚ
deriving DecidableEq

/-- One seismic event feature of the feed. -/
structure geoJsonFeature where
  typ : String
  properties : geoJsonProperties
  geometry : geoJsonGeometry
  id : String
deriving DecidableEq

/-- A decoded feed snapshot. -/
structure geoJson where
  typ : String
  metadata : geoJsonMetadata
  features : List geoJsonFeature
deriving DecidableEq

/-- The three-letter Go month names in order. -/
def monthTable : List (String × Nat) :=
  [("Jan", 1), ("Feb", 2), ("Mar", 3), ("Apr", 4), ("May", 5), ("Jun", 6),
   ("Jul", 7), ("Aug", 8), ("Sep", 9), ("Oct", 10), ("Nov", 11), ("Dec", 12)]

/-- Month number from a three-letter Go month name. -/
def monthFromName (s : String) : Option Nat :=
  (monthTable.find? (fun p => p.1 == s)).map (fun p => p.2)

/-- Days in each month of year 0 (a leap year: February has 29 days). -/
def daysInMonthY0 (m : Nat) : Nat :=
  if m = 2 then 29
  else if m = 4 ∨ m = 6 ∨ m = 9 ∨ m = 11 then 30
  else 31

/-- Cumulative days of year 0 before the given month. -/
def cumDaysY0 (m : Nat) : Nat :=
  match m with
  | 1 => 0
  | 2 => 31
  | 3 => 60
  | 4 => 91
  | 5 => 121
  | 6 => 152
  | 7 => 182
  | 8 => 213
  | 9 => 244
  | 10 => 274
  | 11 => 305
  | _ => 335

/-- The fields `time.Parse` extracts from `"Jan/02/15:04:05/MST"`. -/
structure TimeFields where
  month : Nat
  day : Nat
  hour : Nat
  minute : Nat
  second : Nat
deriving DecidableEq

/-- Numeric value of a two-digit field. -/
def twoDigits (a b : Char) : Nat :=
  10 * (a.toNat - 48) + (b.toNat - 48)

/-- True when the character is an uppercase ASCII letter. -/
def isUpperAscii (c : Char) : Bool :=
  65 ≤ c.toNat && c.toNat ≤ 90

/-- Consume the three-letter month name and its following separator. -/
def parseMonthPart (cs : List Char) : Option (Nat × List Char) :=
  match cs with
  | c0 :: c1 :: c2 :: '/' :: rest =>
    (monthFromName (String.mk [c0, c1, c2])).map (fun m => (m, rest))
  | _ => none

/-- Consume a zero-padded two-digit numeric field. -/
def parse2d (cs : List Char) : Option (Nat × List Char) :=
  match cs with
  | a :: b :: rest =>
    if a.isDigit ∧ b.isDigit then some (twoDigits a b, rest) else none
  | _ => none

/-- Consume one expected separator character. -/
def expectSep (c : Char) (cs : List Char) : Option (List Char) :=
  match cs with
  | x :: rest => if x = c then some rest else none
  | _ => none

/-- True when the remaining characters form an acceptable zone
abbreviation: 2-5 uppercase ASCII letters (parsed with offset 0, as Go
fabricates a zero-offset zone for unknown abbreviations). -/
def validZone (zone : List Char) : Bool :=
  decide (2 ≤ zone.length) && decide (zone.length ≤ 5) && zone.all isUpperAscii

/-- Model of `time.Parse(TIMEFORMAT, s)`: accepts the canonical zero-padded
rendering `Mon/dd/hh:mm:ss/ZONE`, validating field ranges as Go does. -/
def parseGoTime (s : String) : Option TimeFields :=
  match parseMonthPart s.toList with
  | none => none
  | some (mon, r1) =>
    match parse2d r1 with
    | none => none
    | some (day, r2) =>
      match expectSep '/' r2 with
      | none => none
      | some r3 =>
        match parse2d r3 with
        | none => none
        | some (hour, r4) =>
          match expectSep ':' r4 with
          | none => none
          | some r5 =>
            match parse2d r5 with
            | none => none
            | some (minute, r6) =>
              match expectSep ':' r6 with
              | none => none
              | some r7 =>
                match parse2d r7 with
                | none => none
                | some (second, r8) =>
                  match expectSep '/' r8 with
                  | none => none
                  | some zone =>
                    if 1 ≤ day ∧ day ≤ daysInMonthY0 mon ∧ hour ≤ 23 ∧ minute ≤ 59
                        ∧ second ≤ 59 ∧ validZone zone then
                      some ⟨mon, day, hour, minute, second⟩
                    else none

/-- Absolute second of year 0 denoted by parsed time fields. -/
def secOfYear (f : TimeFields) : Nat :=
  (cumDaysY0 f.month + (f.day - 1)) * 86400 + f.hour * 3600 + f.minute * 60 + f.second

/-- First second of year 1: the value of Go's zero `time.Time`, which a
failed parse produces. -/
def failTimeVal : Nat := 31622400

/-- Comparison key of a parse result: a successful parse lands in year 0,
a failed parse is Go's zero `time.Time` in year 1. -/
def goTimeVal (o : Option TimeFields) : Nat :=
  match o with
  | none => failTimeVal
  | some f => secOfYear f

/-- A decimal floating value `mantissa / 10 ^ shift`.  `addRow`'s magnitude
(Go `float64` narrowed to 32 bits) is modelled by the exact decimal value
of the parsed literal; the color-threshold comparisons below agree with
the float comparisons of the code on every magnitude inside a claimed
color band, because rounding to float32 is monotone. -/
structure GoFloat where
  mantissa : Int
  shift : Nat
deriving DecidableEq

/-- Exact rational value of a decimal floating value. -/
def GoFloat.val (a : GoFloat) : ℚ :=
  (a.mantissa : ℚ) / (10 : ℚ) ^ a.shift

/-- Comparison of decimal floating values by cross-multiplication. -/
def GoFloat.leB (a b : GoFloat) : Bool :=
  decide (a.mantissa * 10 ^ b.shift ≤ b.mantissa * 10 ^ a.shift)

/-- Fractional digits of a decimal literal, as numerator over a power of ten. -/
def fracVal (cs : List Char) : Int × Nat :=
  match cs with
  | [] => (0, 0)
  | c :: rest =>
    let (v, k) := fracVal rest
    ((c.toNat - 48 : Int) * 10 ^ k + v, k + 1)

/-- Integer value of a digit run. -/
def digitsVal (cs : List Char) : Int :=
  cs.foldl (fun acc c => 10 * acc + ((c.toNat : Int) - 48)) 0

/-- Parse an optional decimal exponent suffix `e±ddd`. -/
def parseExp (cs : List Char) : Option Int :=
  match cs with
  | [] => some 0
  | 'e' :: rest => parseExpBody rest
  | 'E' :: rest => parseExpBody rest
  | _ => none
where
  parseExpBody (cs : List Char) : Option Int :=
    match cs with
    | '+' :: ds => if ds ≠ [] ∧ ds.all Char.isDigit then some (digitsVal ds) else none
    | '-' :: ds => if ds ≠ [] ∧ ds.all Char.isDigit then some (-(digitsVal ds)) else none
    | ds => if ds ≠ [] ∧ ds.all Char.isDigit then some (digitsVal ds) else none

/-- Split a digit run off the front of a character list. -/
def takeDigits (cs : List Char) : List Char × List Char :=
  match cs with
  | [] => ([], [])
  | c :: rest =>
    if c.isDigit then
      let (d, r) := takeDigits rest
      (c :: d, r)
    else ([], cs)

/-- Scale a decimal value by ten to a signed exponent. -/
def applyExp (m : Int) (k : Nat) (e : Int) : GoFloat :=
  if 0 ≤ e then ⟨m * 10 ^ e.toNat, k⟩ else ⟨m, k + e.natAbs⟩

/-- Model of `strconv.ParseFloat(s, 32)` as used by `addRow`: parses plain
decimal notation (optional sign, digits with optional fraction, optional
decimal exponent) to its exact decimal value; every other input —
including the special float syntax Go would accept — yields 0, the value
`addRow` keeps when `ParseFloat` reports an error. -/
def parseFloatGo (s : String) : GoFloat :=
  match parseSigned s.toList with
  | some q => q
  | none => ⟨0, 0⟩
where
  parseUnsigned (cs : List Char) : Option GoFloat :=
    let (ip, rest1) := takeDigits cs
    match rest1 with
    | '.' :: rest2 =>
      let (fp, rest3) := takeDigits rest2
      if ip = [] ∧ fp = [] then none
      else
        match parseExp rest3 with
        | none => none
        | some e =>
          let (fnum, fk) := fracVal fp
          some (applyExp (digitsVal ip * 10 ^ fk + fnum) fk e)
    | _ =>
      if ip = [] then none
      else
        match parseExp rest1 with
        | none => none
        | some e => some (applyExp (digitsVal ip) 0 e)
  parseSigned (cs : List Char) : Option GoFloat :=
    match cs with
    | '+' :: rest => parseUnsigned rest
    | '-' :: rest => (parseUnsigned rest).map (fun q => ⟨-q.mantissa, q.shift⟩)
    | _ => parseUnsigned cs

/-- The on-screen table: row 0 is the header, rows 1.. are data rows. -/
abbrev Table := List (List TableCell)

/-- Default cell returned for an absent position (tview returns an
uninitialized cell). -/
def emptyCell : TableCell := ⟨"", GoColor.green, GoAlign.left, false⟩

/-- Text of the cell at the given column of a row. -/
def cellText (r : List TableCell) (c : Nat) : String :=
  (r.getD c emptyCell).text

/-- Identifier column (column 0) of a data row. -/
def idOfRow (r : List TableCell) : String := cellText r 0

/-- Parsed-time comparison key of a data row's time column (column 1). -/
def rowTimeVal (r : List TableCell) : Nat :=
  goTimeVal (parseGoTime (cellText r 1))

/-- The scan's strictly-before test: `rowTime.Before(quakeTime)`. -/
def rowTimeLt (r : List TableCell) (qt : Nat) : Bool :=
  decide (rowTimeVal r < qt)

/-- The row scan of `addRow`: walks data rows carrying the loop state
`(atRow, foundTime)`; breaking on an identifier match returns
`(row, true)`, otherwise the first row strictly before the quake time is
recorded and the final `(atRow, updateNotInsert = false)` is returned. -/
def scanRows (qid : String) (qt : Nat) : List (List TableCell) → Nat → Nat → Bool → Nat × Bool
  | [], _, atRow, _ => (atRow, false)
  | r :: rest, idx, atRow, foundTime =>
    if idOfRow r = qid then (idx, true)
    else if !foundTime && rowTimeLt r qt then
      scanRows qid qt rest (idx + 1) idx true
    else
      scanRows qid qt rest (idx + 1) atRow foundTime

/-- Insert an element at a position of a list (tview `InsertRow`),
shifting subsequent elements down. -/
def insertAt : Nat → α → List α → List α
  | 0, a, l => a :: l
  | _ + 1, a, [] => [a]
  | n + 1, a, x :: xs => x :: insertAt n a xs

/-- Severity color of a cell: the magnitude switch of `addRow` (default
green; `[4, 5.99]` yellow; `[6, 6.99]` orange; `[7, ∞)` red), with the
identifier column 0 overridden to dark cyan. -/
def cellColor (m : GoFloat) (col : Nat) : GoColor :=
  let c :=
    if GoFloat.leB ⟨4, 0⟩ m && GoFloat.leB m ⟨599, 2⟩ then GoColor.yellow
    else if GoFloat.leB ⟨6, 0⟩ m && GoFloat.leB m ⟨699, 2⟩ then GoColor.orange
    else if GoFloat.leB ⟨7, 0⟩ m then GoColor.red
    else GoColor.green
  if col = 0 then GoColor.darkCyan else c

/-- The five cells `addRow` writes for a quake display row. -/
def rowCells (quake : List String) : List TableCell :=
  (List.range 5).map (fun col =>
    ⟨quake.getD col "", cellColor (parseFloatGo (quake.getD 2 "")) col,
      GoAlign.left, col == 0⟩)

/-- Parsed-time comparison key of the quake being upserted. -/
def qTimeVal (quake : List String) : Nat :=
  goTimeVal (parseGoTime (quake.getD 1 ""))

/-- The scan `addRow` performs over the full table: data rows are rows
1 .. rowCount-1, the loop state starts at `atRow = 1`. -/
def upsertScan (t : Table) (quake : List String) : Nat × Bool :=
  scanRows (quake.getD 0 "") (qTimeVal quake) (t.drop 1) 1 1 false

/-- Go `addRow`: update the first row whose identifier matches in place,
else insert a fresh row at the scanned position. -/
def addRowT (t : Table) (quake : List String) : Table :=
  let r := upsertScan t quake
  if r.2 then t.set r.1 (rowCells quake)
  else insertAt r.1 (rowCells quake) t

/-- The header row `main` installs at row 0. -/
def headerRow : List TableCell :=
  [⟨"ID", GoColor.yellow, GoAlign.center, true⟩,
   ⟨"Time", GoColor.yellow, GoAlign.center, true⟩,
   ⟨"Magnitude", GoColor.yellow, GoAlign.center, true⟩,
   ⟨"Location", GoColor.yellow, GoAlign.center, true⟩,
   ⟨"Properties/IDs", GoColor.yellow, GoAlign.center, true⟩]

/-- The table at startup: header only, no data rows. -/
def initialTable : Table := [headerRow]

/-- Apply a list of display rows through `addRow` in order, as
`populateTableData` does. -/
def upsertAll (t : Table) (qs : List (List String)) : Table :=
  qs.foldl addRowT t

/-- Identifiers of the data rows, top to bottom. -/
def dataIDs (t : Table) : List String :=
  (t.drop 1).map idOfRow

/-- Parsed time keys of the data rows, top to bottom. -/
def dataTimes (t : Table) : List Nat :=
  (t.drop 1).map rowTimeVal

/-- The descending-time ordering invariant of the spec: data-row time keys
are non-increasing from top to bottom. -/
def sortedTable (t : Table) : Prop :=
  List.Chain' (fun a b => b ≤ a) (dataTimes t)

/-- Executable check that a list of time keys is non-increasing. -/
def nonIncB : List Nat → Bool
  | [] => true
  | [_] => true
  | a :: b :: rest => decide (b ≤ a) && nonIncB (b :: rest)

lemma nonIncB_iff_chain' : ∀ L : List Nat,
    nonIncB L = true ↔ List.Chain' (fun a b => b ≤ a) L
  | [] => by simp [nonIncB]
  | [a] => by simp [nonIncB]
  | a :: b :: rest => by
    rw [show nonIncB (a :: b :: rest) = (decide (b ≤ a) && nonIncB (b :: rest)) from rfl,
      List.chain'_cons, Bool.and_eq_true, decide_eq_true_eq,
      nonIncB_iff_chain' (b :: rest)]

instance (t : Table) : Decidable (sortedTable t) :=
  decidable_of_iff (nonIncB (dataTimes t) = true) (nonIncB_iff_chain' (dataTimes t))

/-- Index of the first element satisfying a predicate. -/
def findIdxO (p : α → Bool) : List α → Option Nat
  | [] => none
  | x :: xs => if p x then some 0 else (findIdxO p xs).map (· + 1)

/-- The identifier test of the scan as a boolean predicate. -/
def idIs (qid : String) (r : List TableCell) : Bool :=
  decide (idOfRow r = qid)

/-- Go month names, indexed 1-12. -/
def monthName (m : Nat) : String :=
  match m with
  | 1 => "Jan"
  | 2 => "Feb"
  | 3 => "Mar"
  | 4 => "Apr"
  | 5 => "May"
  | 6 => "Jun"
  | 7 => "Jul"
  | 8 => "Aug"
  | 9 => "Sep"
  | 10 => "Oct"
  | 11 => "Nov"
  | _ => "Dec"

/-- Zero-padded two-digit rendering. -/
def pad2 (n : Nat) : String :=
  if n < 10 then "0" ++ toString n else toString n

/-- Civil year, month and day from days since 1970-01-01 (proleptic
Gregorian). -/
def civilFromDays (days : Int) : Int × Nat × Nat :=
  let z := days + 719468
  let era := Int.fdiv z 146097
  let doe := (z - era * 146097).toNat
  let yoe := (doe - doe / 1460 + doe / 36524 - doe / 146096) / 365
  let y := (yoe : Int) + era * 400
  let doy := doe - (365 * yoe + yoe / 4 - yoe / 100)
  let mp := (5 * doy + 2) / 153
  let d := doy - (153 * mp + 2) / 5 + 1
  let m := if mp < 10 then mp + 3 else mp - 9
  (if m ≤ 2 then y + 1 else y, m, d)

/-- Model of `time.Unix(sec, 0).Format("Jan/02/15:04:05/MST")`, rendering
in UTC (the source renders in the local zone; no claim depends on the
zone). -/
def formatGoTime (sec : Int) : String :=
  let days := Int.fdiv sec 86400
  let sod := (Int.fmod sec 86400).toNat
  let md := (civilFromDays days).2
  monthName md.1 ++ "/" ++ pad2 md.2 ++ "/" ++ pad2 (sod / 3600) ++ ":"
    ++ pad2 (sod % 3600 / 60) ++ ":" ++ pad2 (sod % 60) ++ "/UTC"

/-- Model of `fmt.Sprintf("%.02f", mag)`: two-decimal rendering of the
magnitude (rounding ties away from the code's binary tie-breaking, which
no claim depends on). -/
def fmtMag2 (q : ℚ) : String :=
  let n : Int := ⌊q * 100 + 1 / 2⌋
  let sign := if n < 0 then "-" else ""
  let a := n.natAbs
  sign ++ toString (a / 100) ++ "." ++ pad2 (a % 100)

/-- The zero value of a feature, used only as the irrelevant `getD`
default of the in-place reversal. -/
def defaultFeature : geoJsonFeature :=
  ⟨"", ⟨0, "", 0, 0, 0, "", "", 0, 0, 0, "", "", 0, 0, "", "", "", "", "", 0, 0, 0, 0, "", "", ""⟩,
    ⟨"", []⟩, ""⟩

/-- One step of the reversal loop: the simultaneous slice swap
`data.Features[i], data.Features[opp] = data.Features[opp], data.Features[i]`. -/
def swapIdx (l : List α) (i j : Nat) (d : α) : List α :=
  (l.set i (l.getD j d)).set j (l.getD i d)

/-- The reversal loop of `getQuakeList`, counting `i` from `len/2 - 1`
down to `0` and swapping `i` with `len - 1 - i`. -/
def revLoopAux (d : α) (l : List α) : Nat → List α
  | 0 => l
  | m + 1 => revLoopAux d (swapIdx l m (l.length - 1 - m) d) m

/-- The in-place feature-list reversal performed by `getQuakeList`. -/
def revLoop (d : α) (l : List α) : List α :=
  revLoopAux d l (l.length / 2)

/-- The display row `getQuakeList` builds for one feature: identifier,
formatted time, two-decimal magnitude, place, auxiliary ids (the
coordinates column of the legacy variant is commented out in the source). -/
def rowOfFeature (y : geoJsonFeature) : List String :=
  [y.id,
   formatGoTime (Int.tdiv y.properties.time 1000),
   fmtMag2 y.properties.mag,
   y.properties.place,
   y.properties.ids]

/-- The event store: Go `map[string]geoJsonFeature`, observed through
lookups. -/
def Store := String → Option geoJsonFeature

/-- Go map assignment `quakeList[id] = y`. -/
def storeInsert (s : Store) (k : String) (v : geoJsonFeature) : Store :=
  fun x => if x = k then some v else s x

/-- Go map lookup. -/
def storeGet (s : Store) (k : String) : Option geoJsonFeature := s k

/-- The store at startup: `make(map[string]geoJsonFeature)`. -/
def emptyStore : Store := fun _ => none

/-- Go `getQuakeList` on an already-fetched snapshot (the network fetch is
the black-box snapshot argument): reverse the feature list, then for each
feature unconditionally overwrite the store entry and append its display
row. -/
def getQuakeList (quakeList : Store) (data : geoJson) : Store × List (List String) :=
  (revLoop defaultFeature data.features).foldl
    (fun acc y => (storeInsert acc.1 y.id y, acc.2 ++ [rowOfFeature y]))
    (quakeList, [])

/-- The store after one fetch/reconcile cycle. -/
def runCycle (st : Store) (snap : geoJson) : Store :=
  (getQuakeList st snap).1

/-- The store after a sequence of fetch/reconcile cycles. -/
def runCycles (st : Store) (snaps : List geoJson) : Store :=
  snaps.foldl runCycle st

/-- Modelled from the spec: the most recently fetched record bearing an
identifier — the matching feature of the latest snapshot reporting it
(the feed lists an event at most once per snapshot, so within one
snapshot the first match is the record). -/
def mostRecentFetched : List geoJson → String → Option geoJsonFeature
  | [], _ => none
  | s :: rest, i =>
    match mostRecentFetched rest i with
    | some f => some f
    | none => s.features.find? (fun y => y.id == i)

/-- Outcome of a Go call that may panic. -/
inductive GoResult (α : Type) where
  | ok : α → GoResult α
  | panicked : String → GoResult α
deriving DecidableEq

/-- True when the call panicked (terminating the process). -/
def GoResult.isPanic {α : Type} : GoResult α → Bool
  | .ok _ => false
  | .panicked _ => true

/-- True when a Go call returned a non-nil error. -/
def exceptErr {α β : Type} : Except α β → Bool
  | .error _ => true
  | .ok _ => false

/-- Control-flow model of `getUsgsGeoStats`: `resp` is the outcome of
`http.Get` (an abstract response handle `β` on success), `readAll` models
`ioutil.ReadAll` of the response body (bytes read, plus the error it may
report), `unmarshal` models `json.Unmarshal` into the feed schema (a
black box per the spec).  As in the source: an `http.Get` error panics;
the `ReadAll` error is DISCARDED — the source overwrites `err` with the
`json.Unmarshal` result without checking it; an `unmarshal` error panics;
otherwise the decoded snapshot is returned, with no retry. -/
def getUsgsGeoStats (β : Type) (resp : Except String β)
    (readAll : β → List Nat × Option String)
    (unmarshal : List Nat → Except String geoJson) : GoResult geoJson :=
  match resp with
  | .error e => .panicked e
  | .ok r =>
    match unmarshal (readAll r).1 with
    | .error e => .panicked e
    | .ok j => .ok j

/-- Modelled from the spec: "any transport error or malformed body is a
fatal, unrecoverable condition" — the transport fails when `http.Get`
returns an error or reading the response body reports an error; the body
is malformed when the feed decoder rejects the bytes read. -/
def specTransportOrDecodeFails (β : Type) (resp : Except String β)
    (readAll : β → List Nat × Option String)
    (unmarshal : List Nat → Except String geoJson) : Bool :=
  match resp with
  | .error _ => true
  | .ok r => (readAll r).2.isSome || exceptErr (unmarshal (readAll r).1)

example : parseGoTime "Jan/02/10:00:00/UTC" = some ⟨1, 2, 10, 0, 0⟩ := by decide
example : parseGoTime "Jan/2/10:00:00/UTC" = none := by decide
example : parseFloatGo "5.99" = ⟨599, 2⟩ := by decide
example : parseFloatGo "x" = ⟨0, 0⟩ := by decide
example : parseFloatGo "-0.25" = ⟨-25, 2⟩ := by decide
example : parseFloatGo "6.50" = ⟨650, 2⟩ := by decide
example : cellColor (parseFloatGo "6.50") 2 = GoColor.orange := by decide
example : cellColor (parseFloatGo "3.90") 1 = GoColor.green := by decide
example : cellColor (parseFloatGo "7.10") 3 = GoColor.red := by decide
example : cellColor (parseFloatGo "7.10") 0 = GoColor.darkCyan := by decide

lemma findIdxO_none_iff (p : α → Bool) (l : List α) :
    findIdxO p l = none ↔ ∀ x ∈ l, p x = false := by
  induction l with
  | nil => simp [findIdxO]
  | cons x xs ih =>
    by_cases h : p x <;> simp [findIdxO, h, ih]

lemma findIdxO_some_getD (p : α → Bool) (l : List α) (j : Nat) (d : α)
    (h : findIdxO p l = some j) : p (l.getD j d) = true ∧ j < l.length := by
  induction l generalizing j with
  | nil => simp [findIdxO] at h
  | cons x xs ih =>
    by_cases hx : p x
    · simp [findIdxO, hx] at h
      subst h
      simpa using hx
    · simp [findIdxO, hx] at h
      obtain ⟨j', hj', rfl⟩ := h
      have := ih j' hj'
      simpa using this

lemma findIdxO_some_prefix (p : α → Bool) (l : List α) (j k : Nat) (d : α)
    (h : findIdxO p l = some j) (hk : k < j) : p (l.getD k d) = false := by
  induction l generalizing j k with
  | nil => simp [findIdxO] at h
  | cons x xs ih =>
    by_cases hx : p x
    · simp [findIdxO, hx] at h
      omega
    · simp [findIdxO, hx] at h
      obtain ⟨j', hj', rfl⟩ := h
      match k with
      | 0 => simpa using hx
      | k' + 1 => exact ih j' k' hj' (by omega)

lemma scan_break (qid : String) (qt : Nat) (l : List (List TableCell)) (j : Nat)
    (h : findIdxO (idIs qid) l = some j) :
    ∀ i a ft, scanRows qid qt l i a ft = (i + j, true) := by
  induction l generalizing j with
  | nil => simp [findIdxO] at h
  | cons r rest ih =>
    intro i a ft
    by_cases hid : idOfRow r = qid
    · simp [findIdxO, idIs, hid] at h
      subst h
      simp [scanRows, hid]
    · simp [findIdxO, idIs, hid] at h
      obtain ⟨j', hj', rfl⟩ := h
      have harith : i + 1 + j' = i + (j' + 1) := by omega
      by_cases ht : (!ft && rowTimeLt r qt) = true
      · rw [show scanRows qid qt (r :: rest) i a ft
            = scanRows qid qt rest (i + 1) i true by simp [scanRows, hid, ht],
          ih j' hj', harith]
      · rw [show scanRows qid qt (r :: rest) i a ft
            = scanRows qid qt rest (i + 1) a ft by simp [scanRows, hid, ht],
          ih j' hj', harith]

lemma scan_none_ft (qid : String) (qt : Nat) (l : List (List TableCell))
    (h : findIdxO (idIs qid) l = none) :
    ∀ i a, scanRows qid qt l i a true = (a, false) := by
  induction l with
  | nil => intro i a; simp [scanRows]
  | cons r rest ih =>
    intro i a
    rw [findIdxO_none_iff] at h
    have hid : ¬ idOfRow r = qid := by
      have := h r (by simp)
      simpa [idIs] using this
    have hrest : findIdxO (idIs qid) rest = none := by
      rw [findIdxO_none_iff]
      intro x hx
      exact h x (by simp [hx])
    simp [scanRows, hid, ih hrest]

lemma scan_none (qid : String) (qt : Nat) (l : List (List TableCell))
    (h : findIdxO (idIs qid) l = none) :
    ∀ i a, scanRows qid qt l i a false =
      (match findIdxO (fun r => rowTimeLt r qt) l with
       | some j => i + j
       | none => a, false) := by
  induction l with
  | nil => intro i a; simp [scanRows, findIdxO]
  | cons r rest ih =>
    intro i a
    have hid : ¬ idOfRow r = qid := by
      rw [findIdxO_none_iff] at h
      have := h r (by simp)
      simpa [idIs] using this
    have hrest : findIdxO (idIs qid) rest = none := by
      rw [findIdxO_none_iff] at h ⊢
      intro x hx
      exact h x (by simp [hx])
    by_cases ht : rowTimeLt r qt
    · simp [scanRows, hid, ht, scan_none_ft qid qt rest hrest, findIdxO]
    · simp only [scanRows, hid, if_neg hid, Bool.not_false, Bool.true_and]
      simp only [ht, if_neg (by simp [ht] : ¬ (!false && rowTimeLt r qt) = true)]
      rw [ih hrest]
      simp [findIdxO, ht]
      cases hfi : findIdxO (fun r => rowTimeLt r qt) rest with
      | none => simp
      | some j =>
        show i + 1 + j = i + (j + 1)
        omega

lemma scan_shift (qid : String) (qt : Nat) (l : List (List TableCell)) :
    ∀ i a ft, scanRows qid qt l (i + 1) (a + 1) ft =
      ((scanRows qid qt l i a ft).1 + 1, (scanRows qid qt l i a ft).2) := by
  induction l with
  | nil => intro i a ft; simp [scanRows]
  | cons r rest ih =>
    intro i a ft
    by_cases hid : idOfRow r = qid
    · simp [scanRows, hid]
    · by_cases ht : (!ft && rowTimeLt r qt) = true
      · simp [scanRows, hid, ht, ih]
      · simp [scanRows, hid, ht, ih]

lemma monthFromName_bound (s : String) (m : Nat) (h : monthFromName s = some m) :
    1 ≤ m ∧ cumDaysY0 m + daysInMonthY0 m ≤ 366 := by
  unfold monthFromName at h
  cases hf : monthTable.find? (fun p => p.1 == s) with
  | none => rw [hf] at h; cases h
  | some p =>
    rw [hf] at h
    injection h with h2
    subst h2
    have hp : p ∈ monthTable := List.mem_of_find?_eq_some hf
    fin_cases hp <;> decide

lemma parseMonthPart_bound (cs : List Char) (m : Nat) (r : List Char)
    (h : parseMonthPart cs = some (m, r)) :
    1 ≤ m ∧ cumDaysY0 m + daysInMonthY0 m ≤ 366 := by
  unfold parseMonthPart at h
  split at h
  case h_2 => cases h
  case h_1 c0 c1 c2 rest =>
    cases hm : monthFromName (String.mk [c0, c1, c2]) with
    | none => rw [hm] at h; cases h
    | some m' =>
      rw [hm] at h
      injection h with h2
      have : m' = m := congrArg Prod.fst h2
      subst this
      exact monthFromName_bound _ _ hm

lemma parseGoTime_bound (s : String) (f : TimeFields) (h : parseGoTime s = some f) :
    secOfYear f < failTimeVal := by
  unfold parseGoTime at h
  split at h
  case h_1 => cases h
  case h_2 mon r1 hmon =>
    split at h
    case h_1 => cases h
    case h_2 day r2 _ =>
      split at h
      case h_1 => cases h
      case h_2 r3 _ =>
        split at h
        case h_1 => cases h
        case h_2 hour r4 _ =>
          split at h
          case h_1 => cases h
          case h_2 r5 _ =>
            split at h
            case h_1 => cases h
            case h_2 minute r6 _ =>
              split at h
              case h_1 => cases h
              case h_2 r7 _ =>
                split at h
                case h_1 => cases h
                case h_2 second r8 _ =>
                  split at h
                  case h_1 => cases h
                  case h_2 zone _ =>
                    split_ifs at h with hrange
                    obtain ⟨hd1, hd2, hh, hm, hs, hz⟩ := hrange
                    injection h with h2
                    subst h2
                    have hb := parseMonthPart_bound _ _ _ hmon
                    simp only [secOfYear, failTimeVal]
                    omega

lemma goTimeVal_parse_le (s : String) :
    goTimeVal (parseGoTime s) ≤ failTimeVal := by
  cases h : parseGoTime s with
  | none => simp [goTimeVal]
  | some f => exact Nat.le_of_lt (by simpa [goTimeVal] using parseGoTime_bound s f h)

/-- The scan of `addRow` over the data rows only, 0-based. -/
def scanData (qid : String) (qt : Nat) (d : List (List TableCell)) : Nat × Bool :=
  scanRows qid qt d 0 0 false

/-- Go `addRow` acting on the data rows only. -/
def addRowData (d : List (List TableCell)) (q : List String) : List (List TableCell) :=
  let r := scanData (q.getD 0 "") (qTimeVal q) d
  if r.2 then d.set r.1 (rowCells q) else insertAt r.1 (rowCells q) d

/-- The data-relative insertion position: first data row strictly before
the quake time, else position 0 (the top — `atRow` starts at 1). -/
def insPosD (qt : Nat) (d : List (List TableCell)) : Nat :=
  match findIdxO (fun r => rowTimeLt r qt) d with
  | some j => j
  | none => 0

lemma scanData_break (qid : String) (qt : Nat) (d : List (List TableCell)) (j : Nat)
    (h : findIdxO (idIs qid) d = some j) : scanData qid qt d = (j, true) := by
  unfold scanData
  rw [scan_break qid qt d j h 0 0 false]
  simp

lemma scanData_none (qid : String) (qt : Nat) (d : List (List TableCell))
    (h : findIdxO (idIs qid) d = none) : scanData qid qt d = (insPosD qt d, false) := by
  unfold scanData insPosD
  rw [scan_none qid qt d h 0 0]
  cases hfi : findIdxO (fun r => rowTimeLt r qt) d <;> simp [hfi]

lemma upsertScan_cons (hr : List TableCell) (d : List (List TableCell)) (q : List String) :
    upsertScan (hr :: d) q =
      ((scanData (q.getD 0 "") (qTimeVal q) d).1 + 1,
       (scanData (q.getD 0 "") (qTimeVal q) d).2) := by
  unfold upsertScan scanData
  simpa using scan_shift (q.getD 0 "") (qTimeVal q) d 0 0 false

lemma addRowT_cons (hr : List TableCell) (d : List (List TableCell)) (q : List String) :
    addRowT (hr :: d) q = hr :: addRowData d q := by
  unfold addRowT addRowData
  rw [upsertScan_cons]
  show (if (scanData (q.getD 0 "") (qTimeVal q) d).2 = true
        then (hr :: d).set ((scanData (q.getD 0 "") (qTimeVal q) d).1 + 1) (rowCells q)
        else insertAt ((scanData (q.getD 0 "") (qTimeVal q) d).1 + 1) (rowCells q) (hr :: d))
      = hr :: (if (scanData (q.getD 0 "") (qTimeVal q) d).2 = true
        then d.set (scanData (q.getD 0 "") (qTimeVal q) d).1 (rowCells q)
        else insertAt (scanData (q.getD 0 "") (qTimeVal q) d).1 (rowCells q) d)
  by_cases hu : (scanData (q.getD 0 "") (qTimeVal q) d).2 = true
  · rw [if_pos hu, if_pos hu, List.set_cons_succ]
  · rw [if_neg hu, if_neg hu]
    rfl

lemma upsertAll_cons (qs : List (List String)) :
    ∀ (hr : List TableCell) (d : List (List TableCell)),
      upsertAll (hr :: d) qs = hr :: qs.foldl addRowData d := by
  induction qs with
  | nil => intro hr d; rfl
  | cons q rest ih =>
    intro hr d
    show upsertAll (addRowT (hr :: d) q) rest = _
    rw [addRowT_cons, ih]
    rfl

lemma length_insertAt (n : Nat) (a : α) (l : List α) :
    (insertAt n a l).length = l.length + 1 := by
  induction l generalizing n with
  | nil => cases n <;> simp [insertAt]
  | cons x xs ih =>
    cases n with
    | zero => simp [insertAt]
    | succ m => simp [insertAt, ih]

lemma insertAt_perm (n : Nat) (a : α) (l : List α) :
    (insertAt n a l).Perm (a :: l) := by
  induction l generalizing n with
  | nil => cases n <;> simp [insertAt]
  | cons x xs ih =>
    cases n with
    | zero => simp [insertAt]
    | succ m =>
      have h1 : (x :: insertAt m a xs).Perm (x :: a :: xs) := (ih m).cons x
      have h2 : (x :: a :: xs).Perm (a :: x :: xs) := List.Perm.swap a x xs
      simpa [insertAt] using h1.trans h2

lemma mem_insertAt (n : Nat) (a x : α) (l : List α) :
    x ∈ insertAt n a l ↔ x = a ∨ x ∈ l := by
  rw [(insertAt_perm n a l).mem_iff]
  simp

lemma map_insertAt (f : α → β) (n : Nat) (a : α) (l : List α) :
    (insertAt n a l).map f = insertAt n (f a) (l.map f) := by
  induction l generalizing n with
  | nil => cases n <;> simp [insertAt]
  | cons x xs ih =>
    cases n with
    | zero => simp [insertAt]
    | succ m => simp [insertAt, ih]

lemma find?_insertAt (p : α → Bool) (n : Nat) (a : α) (l : List α)
    (h : p a = false) : (insertAt n a l).find? p = l.find? p := by
  induction l generalizing n with
  | nil => cases n <;> simp [insertAt, List.find?, h]
  | cons x xs ih =>
    cases n with
    | zero =>
      simp only [insertAt, List.find?, h]
    | succ m =>
      simp only [insertAt, List.find?]
      cases hx : p x
      · simp [ih]
      · rfl

lemma set_getD_self (l : List α) (n : Nat) (d : α) :
    l.set n (l.getD n d) = l := by
  induction l generalizing n with
  | nil => simp
  | cons x xs ih =>
    cases n with
    | zero => simp
    | succ m =>
      simp only [List.set_cons_succ, List.getD_cons_succ]
      rw [ih m]

lemma getD_set_ne (l : List α) (n m : Nat) (v d : α) (h : n ≠ m) :
    (l.set n v).getD m d = l.getD m d := by
  induction l generalizing n m with
  | nil => simp
  | cons x xs ih =>
    cases n with
    | zero => cases m with
      | zero => omega
      | succ k => simp
    | succ n' => cases m with
      | zero => simp
      | succ k => simpa using ih n' k (by omega)

lemma getD_set_self (l : List α) (n : Nat) (v d : α) (h : n < l.length) :
    (l.set n v).getD n d = v := by
  induction l generalizing n with
  | nil => simp at h
  | cons x xs ih =>
    cases n with
    | zero => simp
    | succ m => simpa using ih m (by simpa using h)

lemma rowCells_id (q : List String) : idOfRow (rowCells q) = q.getD 0 "" := rfl

lemma rowCells_timeText (q : List String) : cellText (rowCells q) 1 = q.getD 1 "" := rfl

lemma rowCells_time (q : List String) : rowTimeVal (rowCells q) = qTimeVal q := rfl

lemma findIdxO_map (p : β → Bool) (f : α → β) (l : List α) :
    findIdxO p (l.map f) = findIdxO (fun a => p (f a)) l := by
  induction l with
  | nil => rfl
  | cons x xs ih => by_cases h : p (f x) <;> simp [findIdxO, h, ih]

lemma findIdxO_congr (p q : α → Bool) (l : List α) (h : ∀ a, p a = q a) :
    findIdxO p l = findIdxO q l := by
  induction l with
  | nil => rfl
  | cons x xs ih => simp [findIdxO, h x, ih]

lemma findIdxO_find?_none (p : α → Bool) (l : List α) :
    findIdxO p l = none ↔ l.find? p = none := by
  rw [findIdxO_none_iff, List.find?_eq_none]
  simp

lemma findIdxO_find?_some (p : α → Bool) (l : List α) (j : Nat) (d : α)
    (h : findIdxO p l = some j) : l.find? p = some (l.getD j d) := by
  induction l generalizing j with
  | nil => simp [findIdxO] at h
  | cons x xs ih =>
    by_cases hx : p x
    · simp [findIdxO, hx] at h
      subst h
      simp [List.find?, hx]
    · simp [findIdxO, hx] at h
      obtain ⟨j', hj', rfl⟩ := h
      simp only [List.find?, hx, List.getD_cons_succ]
      exact ih j' hj'

lemma map_getD (f : α → β) (l : List α) (n : Nat) (d : α) :
    (l.map f).getD n (f d) = f (l.getD n d) := by
  induction l generalizing n with
  | nil => simp
  | cons x xs ih => cases n <;> simp [ih]

lemma findIdxO_id_none_iff (qid : String) (d : List (List TableCell)) :
    findIdxO (idIs qid) d = none ↔ qid ∉ d.map idOfRow := by
  rw [findIdxO_none_iff]
  simp only [idIs, decide_eq_false_iff_not, List.mem_map, not_exists, not_and]

lemma addRowData_update (d : List (List TableCell)) (q : List String) (j : Nat)
    (h : findIdxO (idIs (q.getD 0 "")) d = some j) :
    addRowData d q = d.set j (rowCells q) := by
  unfold addRowData
  rw [scanData_break (q.getD 0 "") (qTimeVal q) d j h]
  rfl

lemma addRowData_insert (d : List (List TableCell)) (q : List String)
    (h : findIdxO (idIs (q.getD 0 "")) d = none) :
    addRowData d q = insertAt (insPosD (qTimeVal q) d) (rowCells q) d := by
  unfold addRowData
  rw [scanData_none (q.getD 0 "") (qTimeVal q) d h]
  rfl

lemma map_idOfRow_addRowData (d : List (List TableCell)) (q : List String) :
    (addRowData d q).map idOfRow =
      if (q.getD 0 "") ∈ d.map idOfRow then d.map idOfRow
      else insertAt (insPosD (qTimeVal q) d) (q.getD 0 "") (d.map idOfRow) := by
  by_cases hm : (q.getD 0 "") ∈ d.map idOfRow
  · rw [if_pos hm]
    cases hfi : findIdxO (idIs (q.getD 0 "")) d with
    | none => exact absurd hm ((findIdxO_id_none_iff _ d).mp hfi)
    | some j =>
      rw [addRowData_update d q j hfi, List.map_set]
      have hj := findIdxO_some_getD _ d j (rowCells q) hfi
      have hid : idOfRow (d.getD j (rowCells q)) = q.getD 0 "" := by
        have := hj.1
        simpa [idIs] using this
      rw [rowCells_id, ← hid, ← map_getD idOfRow d j (rowCells q), set_getD_self]
  · rw [if_neg hm]
    rw [addRowData_insert d q ((findIdxO_id_none_iff _ d).mpr hm),
      map_insertAt, rowCells_id]

lemma length_addRowData (d : List (List TableCell)) (q : List String) :
    (addRowData d q).length =
      if (q.getD 0 "") ∈ d.map idOfRow then d.length else d.length + 1 := by
  by_cases hm : (q.getD 0 "") ∈ d.map idOfRow
  · rw [if_pos hm]
    cases hfi : findIdxO (idIs (q.getD 0 "")) d with
    | none => exact absurd hm ((findIdxO_id_none_iff _ d).mp hfi)
    | some j => rw [addRowData_update d q j hfi, List.length_set]
  · rw [if_neg hm, addRowData_insert d q ((findIdxO_id_none_iff _ d).mpr hm),
      length_insertAt]

lemma nodup_addRowData (d : List (List TableCell)) (q : List String)
    (h : (d.map idOfRow).Nodup) : ((addRowData d q).map idOfRow).Nodup := by
  rw [map_idOfRow_addRowData]
  split_ifs with hm
  · exact h
  · exact ((insertAt_perm _ _ _).nodup_iff).mpr (List.nodup_cons.mpr ⟨hm, h⟩)

lemma head?_insertAt_zero (a : α) (l : List α) : (insertAt 0 a l).head? = some a := rfl

lemma chain'_insert_findIdxO (v : Nat) (L : List Nat)
    (hc : List.Chain' (fun a b => b ≤ a) L)
    (hno : findIdxO (fun x => decide (x < v)) L = none → ∀ x ∈ L, x ≤ v) :
    List.Chain' (fun a b => b ≤ a)
      (insertAt (match findIdxO (fun x => decide (x < v)) L with
                 | some j => j
                 | none => 0) v L) := by
  induction L with
  | nil => simp [findIdxO, insertAt]
  | cons x xs ih =>
    by_cases hx : x < v
    · have hf : findIdxO (fun y => decide (y < v)) (x :: xs) = some 0 := by
        simp [findIdxO, hx]
      rw [hf]
      show List.Chain' (fun a b => b ≤ a) (v :: x :: xs)
      exact List.chain'_cons.mpr ⟨le_of_lt hx, hc⟩
    · have hf : findIdxO (fun y => decide (y < v)) (x :: xs)
          = (findIdxO (fun y => decide (y < v)) xs).map (· + 1) := by
        simp [findIdxO, hx]
      cases hfi : findIdxO (fun y => decide (y < v)) xs with
      | some j =>
        rw [hf, hfi]
        show List.Chain' (fun a b => b ≤ a) (x :: insertAt j v xs)
        have ihr := ih hc.tail (fun hn => by rw [hfi] at hn; cases hn)
        rw [hfi] at ihr
        apply List.chain'_cons'.mpr
        refine ⟨?_, ihr⟩
        intro y hy
        cases j with
        | zero =>
          rw [head?_insertAt_zero] at hy
          injection hy with hy2
          subst hy2
          omega
        | succ j' =>
          cases xs with
          | nil => rw [show findIdxO (fun y => decide (y < v)) ([] : List Nat) = none from rfl] at hfi; cases hfi
          | cons z zs =>
            have hyz : y = z := by
              have : (insertAt (j' + 1) v (z :: zs)).head? = some z := rfl
              rw [this] at hy
              injection hy with hy2
              exact hy2.symm
            subst hyz
            exact (List.chain'_cons.mp hc).1
      | none =>
        rw [hf, hfi]
        have hall := hno (by rw [hf, hfi]; rfl)
        show List.Chain' (fun a b => b ≤ a) (v :: x :: xs)
        exact List.chain'_cons.mpr ⟨hall x (by simp), hc⟩

/-- The precondition under which one `addRow` call preserves the
descending-time invariant: an update must carry the matched row's
timestamp, an insert must be at least as new as every current data row. -/
def upsertOKD (d : List (List TableCell)) (q : List String) : Prop :=
  match d.find? (idIs (q.getD 0 "")) with
  | some r => rowTimeVal r = qTimeVal q
  | none => ∀ r ∈ d, rowTimeVal r ≤ qTimeVal q

lemma insPosD_map (qt : Nat) (d : List (List TableCell)) :
    findIdxO (fun x => decide (x < qt)) (d.map rowTimeVal)
      = findIdxO (fun r => rowTimeLt r qt) d := by
  rw [findIdxO_map]
  exact findIdxO_congr _ _ d (fun a => rfl)

lemma sorted_addRowData (d : List (List TableCell)) (q : List String)
    (hc : List.Chain' (fun a b => b ≤ a) (d.map rowTimeVal))
    (hok : upsertOKD d q) :
    List.Chain' (fun a b => b ≤ a) ((addRowData d q).map rowTimeVal) := by
  cases hfi : findIdxO (idIs (q.getD 0 "")) d with
  | some j =>
    rw [addRowData_update d q j hfi, List.map_set]
    have hfind := findIdxO_find?_some _ d j (rowCells q) hfi
    have hok' : rowTimeVal (d.getD j (rowCells q)) = qTimeVal q := by
      unfold upsertOKD at hok
      rw [hfind] at hok
      exact hok
    rw [rowCells_time, ← hok', ← map_getD rowTimeVal d j (rowCells q), set_getD_self]
    exact hc
  | none =>
    rw [addRowData_insert d q hfi, map_insertAt, rowCells_time]
    have hall : ∀ r ∈ d, rowTimeVal r ≤ qTimeVal q := by
      unfold upsertOKD at hok
      rw [(findIdxO_find?_none _ d).mp hfi] at hok
      exact hok
    have hpos : insPosD (qTimeVal q) d
        = (match findIdxO (fun x => decide (x < qTimeVal q)) (d.map rowTimeVal) with
           | some j => j
           | none => 0) := by
      unfold insPosD
      rw [insPosD_map]
    rw [hpos]
    apply chain'_insert_findIdxO (qTimeVal q) (d.map rowTimeVal) hc
    intro _ x hx
    obtain ⟨r, hr, rfl⟩ := List.mem_map.mp hx
    exact hall r hr

/-- Boolean form of the per-call precondition, over the full table. -/
def upsertOKB (t : Table) (q : List String) : Bool :=
  match (t.drop 1).find? (idIs (q.getD 0 "")) with
  | some r => decide (rowTimeVal r = qTimeVal q)
  | none => (t.drop 1).all (fun r => decide (rowTimeVal r ≤ qTimeVal q))

/-- A sequence of upserts in which every call satisfies `upsertOKB` at its
point of application. -/
def goodSeqB : Table → List (List String) → Bool
  | _, [] => true
  | t, q :: qs => upsertOKB t q && goodSeqB (addRowT t q) qs

lemma upsertOKB_data (hr : List TableCell) (d : List (List TableCell)) (q : List String)
    (h : upsertOKB (hr :: d) q = true) : upsertOKD d q := by
  unfold upsertOKB at h
  unfold upsertOKD
  rw [show (hr :: d : Table).drop 1 = d from rfl] at h
  cases hfind : d.find? (idIs (q.getD 0 "")) with
  | some r =>
    rw [hfind] at h
    exact of_decide_eq_true h
  | none =>
    rw [hfind] at h
    intro r hrm
    have := (List.all_eq_true.mp h) r hrm
    exact of_decide_eq_true this

lemma sorted_upsertAll_take (qs : List (List String)) :
    ∀ (n : Nat) (hr : List TableCell) (d : List (List TableCell)),
      List.Chain' (fun a b => b ≤ a) (d.map rowTimeVal) →
      goodSeqB (hr :: d) qs = true →
      sortedTable (upsertAll (hr :: d) (qs.take n)) := by
  induction qs with
  | nil =>
    intro n hr d hc _
    rw [List.take_nil]
    show List.Chain' (fun a b => b ≤ a) (dataTimes (hr :: d))
    exact hc
  | cons q rest ih =>
    intro n hr d hc hg
    cases n with
    | zero =>
      rw [List.take_zero]
      exact hc
    | succ n' =>
      rw [List.take_succ_cons]
      show sortedTable (upsertAll (addRowT (hr :: d) q) (rest.take n'))
      unfold goodSeqB at hg
      have hok := upsertOKB_data hr d q (Bool.and_elim_left hg)
      have hg' := Bool.and_elim_right hg
      rw [addRowT_cons] at hg' ⊢
      exact ih n' hr (addRowData d q) (sorted_addRowData d q hc hok) hg'

/-- The pure in-place write: overwrite the first row whose identifier
matches the quake's; a no-op when no row matches. -/
def writeRow (u : List (List TableCell)) (q : List String) : List (List TableCell) :=
  match findIdxO (idIs (q.getD 0 "")) u with
  | some p => u.set p (rowCells q)
  | none => u

lemma ids_writeRow (u : List (List TableCell)) (q : List String) :
    (writeRow u q).map idOfRow = u.map idOfRow := by
  unfold writeRow
  cases hfi : findIdxO (idIs (q.getD 0 "")) u with
  | none => rfl
  | some p =>
    rw [List.map_set]
    have h := findIdxO_some_getD _ u p (rowCells q) hfi
    have hid : idOfRow (u.getD p (rowCells q)) = q.getD 0 "" := by
      simpa [idIs] using h.1
    rw [rowCells_id, ← hid, ← map_getD idOfRow u p (rowCells q), set_getD_self]

lemma findIdxO_idIs_eq_of_ids (x : String) (u v : List (List TableCell))
    (h : u.map idOfRow = v.map idOfRow) :
    findIdxO (idIs x) u = findIdxO (idIs x) v := by
  have h1 : findIdxO (fun s => decide (s = x)) (u.map idOfRow)
      = findIdxO (fun s => decide (s = x)) (v.map idOfRow) := by rw [h]
  rw [findIdxO_map, findIdxO_map] at h1
  exact h1

lemma findIdxO_idIs_writeRow (x : String) (u : List (List TableCell)) (q : List String) :
    findIdxO (idIs x) (writeRow u q) = findIdxO (idIs x) u :=
  findIdxO_idIs_eq_of_ids x _ u (ids_writeRow u q)

lemma addRowData_eq_writeRow (u : List (List TableCell)) (q : List String)
    (h : (q.getD 0 "") ∈ u.map idOfRow) : addRowData u q = writeRow u q := by
  cases hfi : findIdxO (idIs (q.getD 0 "")) u with
  | none => exact absurd h ((findIdxO_id_none_iff _ u).mp hfi)
  | some p =>
    rw [addRowData_update u q p hfi]
    unfold writeRow
    rw [hfi]

lemma hasID_addRowData (u : List (List TableCell)) (q : List String) :
    (q.getD 0 "") ∈ (addRowData u q).map idOfRow := by
  rw [map_idOfRow_addRowData]
  split_ifs with hm
  · exact hm
  · exact (mem_insertAt _ _ _ _).mpr (Or.inl rfl)

lemma hasID_mono (u : List (List TableCell)) (q : List String) (x : String)
    (h : x ∈ u.map idOfRow) : x ∈ (addRowData u q).map idOfRow := by
  rw [map_idOfRow_addRowData]
  split_ifs with hm
  · exact h
  · exact (mem_insertAt _ _ _ _).mpr (Or.inr h)

lemma hasID_fold_mono (qs : List (List String)) :
    ∀ (u : List (List TableCell)) (x : String), x ∈ u.map idOfRow →
      x ∈ ((qs.foldl addRowData u).map idOfRow) := by
  induction qs with
  | nil => intro u x h; exact h
  | cons q rest ih =>
    intro u x h
    rw [List.foldl_cons]
    exact ih (addRowData u q) x (hasID_mono u q x h)

lemma hasID_fold_of_mem (qs : List (List String)) :
    ∀ (u : List (List TableCell)) (q : List String), q ∈ qs →
      (q.getD 0 "") ∈ ((qs.foldl addRowData u).map idOfRow) := by
  induction qs with
  | nil => intro u q h; cases h
  | cons q' rest ih =>
    intro u q h
    rw [List.foldl_cons]
    rcases List.mem_cons.mp h with rfl | hmem
    · exact hasID_fold_mono rest (addRowData u q) _ (hasID_addRowData u q)
    · exact ih (addRowData u q') q hmem

lemma fold_eq_foldW (qs : List (List String)) :
    ∀ (u : List (List TableCell)), (∀ q ∈ qs, (q.getD 0 "") ∈ u.map idOfRow) →
      qs.foldl addRowData u = qs.foldl writeRow u := by
  induction qs with
  | nil => intro u _; rfl
  | cons q rest ih =>
    intro u hall
    rw [List.foldl_cons, List.foldl_cons,
      addRowData_eq_writeRow u q (hall q (by simp))]
    apply ih
    intro q' hq'
    have : (q'.getD 0 "") ∈ u.map idOfRow := hall q' (by simp [hq'])
    rw [ids_writeRow]
    exact this

lemma writeRow_eq_some (u : List (List TableCell)) (q : List String) (p : Nat)
    (h : findIdxO (idIs (q.getD 0 "")) u = some p) :
    writeRow u q = u.set p (rowCells q) := by
  unfold writeRow
  rw [h]

lemma writeRow_eq_none (u : List (List TableCell)) (q : List String)
    (h : findIdxO (idIs (q.getD 0 "")) u = none) :
    writeRow u q = u := by
  unfold writeRow
  rw [h]

lemma writeRow_same_id (u : List (List TableCell)) (q q' : List String)
    (h : q'.getD 0 "" = q.getD 0 "") :
    writeRow (writeRow u q) q' = writeRow u q' := by
  cases hfi : findIdxO (idIs (q'.getD 0 "")) u with
  | none =>
    have hq : findIdxO (idIs (q.getD 0 "")) u = none := by rw [← h]; exact hfi
    rw [writeRow_eq_none u q hq, writeRow_eq_none u q' hfi]
  | some p =>
    have hq : findIdxO (idIs (q.getD 0 "")) u = some p := by rw [← h]; exact hfi
    have hfi2 : findIdxO (idIs (q'.getD 0 "")) (writeRow u q) = some p := by
      rw [findIdxO_idIs_writeRow]
      exact hfi
    rw [writeRow_eq_some _ q' p hfi2, writeRow_eq_some u q p hq,
      writeRow_eq_some u q' p hfi, List.set_set]

lemma writeRow_comm (u : List (List TableCell)) (q q' : List String)
    (h : q.getD 0 "" ≠ q'.getD 0 "") :
    writeRow (writeRow u q) q' = writeRow (writeRow u q') q := by
  cases hfq : findIdxO (idIs (q.getD 0 "")) u with
  | none =>
    rw [writeRow_eq_none u q hfq]
    cases hfq' : findIdxO (idIs (q'.getD 0 "")) u with
    | none =>
      rw [writeRow_eq_none u q' hfq']
      rw [writeRow_eq_none u q hfq]
    | some p' =>
      rw [writeRow_eq_some u q' p' hfq']
      have hq2 : findIdxO (idIs (q.getD 0 "")) (writeRow u q') = none := by
        rw [findIdxO_idIs_writeRow]
        exact hfq
      rw [writeRow_eq_some u q' p' hfq'] at hq2
      rw [writeRow_eq_none _ q hq2]
  | some p =>
    cases hfq' : findIdxO (idIs (q'.getD 0 "")) u with
    | none =>
      rw [writeRow_eq_none u q' hfq']
      have hq2 : findIdxO (idIs (q'.getD 0 "")) (writeRow u q) = none := by
        rw [findIdxO_idIs_writeRow]
        exact hfq'
      rw [writeRow_eq_some u q p hfq] at hq2 ⊢
      rw [writeRow_eq_none _ q' hq2]
    | some p' =>
      have hne : p ≠ p' := by
        intro heq
        subst heq
        have h1 := (findIdxO_some_getD _ u p (rowCells q) hfq).1
        have h2 := (findIdxO_some_getD _ u p (rowCells q) hfq').1
        simp only [idIs, decide_eq_true_eq] at h1 h2
        exact h (h1 ▸ h2 ▸ rfl)
      have ha : findIdxO (idIs (q'.getD 0 "")) (writeRow u q) = some p' := by
        rw [findIdxO_idIs_writeRow]; exact hfq'
      have hb : findIdxO (idIs (q.getD 0 "")) (writeRow u q') = some p := by
        rw [findIdxO_idIs_writeRow]; exact hfq
      rw [writeRow_eq_some _ q' p' ha, writeRow_eq_some _ q p hb,
        writeRow_eq_some u q p hfq, writeRow_eq_some u q' p' hfq']
      exact List.set_comm _ _ u hne

lemma find?_set_of_true (p : α → Bool) (l : List α) (j : Nat) (v : α)
    (hj : findIdxO p l = some j) (hv : p v = true) :
    (l.set j v).find? p = some v := by
  induction l generalizing j with
  | nil => simp [findIdxO] at hj
  | cons x xs ih =>
    by_cases px : p x
    · simp [findIdxO, px] at hj
      subst hj
      simp [List.find?, hv]
    · simp [findIdxO, px] at hj
      obtain ⟨j', hj', rfl⟩ := hj
      simp only [List.set_cons_succ, List.find?, px]
      exact ih j' hj'

lemma find?_set_of_false (p : α → Bool) (l : List α) (j : Nat) (v d : α)
    (hgetD : p (l.getD j d) = false) (hv : p v = false) :
    (l.set j v).find? p = l.find? p := by
  induction l generalizing j with
  | nil => rfl
  | cons x xs ih =>
    cases j with
    | zero =>
      have hx : p x = false := hgetD
      simp only [List.set_cons_zero, List.find?, hx, hv]
    | succ j' =>
      simp only [List.set_cons_succ, List.find?]
      cases px : p x
      · exact ih j' hgetD
      · rfl

lemma find?_insertAt_of_true (p : α → Bool) (n : Nat) (v : α) (l : List α)
    (hall : ∀ x ∈ l, p x = false) (hv : p v = true) :
    (insertAt n v l).find? p = some v := by
  induction l generalizing n with
  | nil =>
    cases n <;> simp [insertAt, List.find?, hv]
  | cons x xs ih =>
    cases n with
    | zero => simp [insertAt, List.find?, hv]
    | succ m =>
      have hx : p x = false := hall x (by simp)
      simp only [insertAt, List.find?, hx]
      exact ih m (fun y hy => hall y (by simp [hy]))

/-- First row bearing an identifier, if any. -/
def vfm (u : List (List TableCell)) (x : String) : Option (List TableCell) :=
  u.find? (idIs x)

lemma vfm_addRowData_self (u : List (List TableCell)) (q : List String) :
    vfm (addRowData u q) (q.getD 0 "") = some (rowCells q) := by
  have hv : idIs (q.getD 0 "") (rowCells q) = true := by
    simp [idIs, rowCells_id]
  cases hfi : findIdxO (idIs (q.getD 0 "")) u with
  | some j =>
    rw [addRowData_update u q j hfi]
    exact find?_set_of_true _ u j _ hfi hv
  | none =>
    rw [addRowData_insert u q hfi]
    exact find?_insertAt_of_true _ _ _ u ((findIdxO_none_iff _ u).mp hfi) hv

lemma vfm_addRowData_other (u : List (List TableCell)) (q : List String) (x : String)
    (h : q.getD 0 "" ≠ x) : vfm (addRowData u q) x = vfm u x := by
  have hv : idIs x (rowCells q) = false := by
    simp only [idIs, rowCells_id, decide_eq_false_iff_not]
    exact h
  cases hfi : findIdxO (idIs (q.getD 0 "")) u with
  | some j =>
    rw [addRowData_update u q j hfi]
    have hget := (findIdxO_some_getD _ u j (rowCells q) hfi).1
    simp only [idIs, decide_eq_true_eq] at hget
    have hgf : idIs x (u.getD j (rowCells q)) = false := by
      simp only [idIs, decide_eq_false_iff_not]
      rw [hget]
      exact h
    exact find?_set_of_false _ u j _ _ hgf hv
  | none =>
    rw [addRowData_insert u q hfi]
    exact find?_insertAt _ _ _ u hv

lemma vfm_fold_nowrite (qs : List (List String)) :
    ∀ (u : List (List TableCell)) (x : String), (∀ q ∈ qs, q.getD 0 "" ≠ x) →
      vfm (qs.foldl addRowData u) x = vfm u x := by
  induction qs with
  | nil => intro u x _; rfl
  | cons q rest ih =>
    intro u x hall
    rw [List.foldl_cons, ih (addRowData u q) x (fun r hr => hall r (by simp [hr])),
      vfm_addRowData_other u q x (hall q (by simp))]

lemma writeRow_noop (u : List (List TableCell)) (q : List String)
    (h : vfm u (q.getD 0 "") = some (rowCells q)) : writeRow u q = u := by
  cases hfi : findIdxO (idIs (q.getD 0 "")) u with
  | none =>
    unfold vfm at h
    rw [(findIdxO_find?_none _ u).mp hfi] at h
    cases h
  | some p =>
    unfold vfm at h
    rw [findIdxO_find?_some _ u p (rowCells q) hfi] at h
    injection h with h2
    rw [writeRow_eq_some u q p hfi, ← h2]
    exact set_getD_self u p (rowCells q)

lemma foldW_absorb (rest : List (List String)) :
    ∀ (u : List (List TableCell)) (q : List String),
      (∃ r ∈ rest, r.getD 0 "" = q.getD 0 "") →
      rest.foldl writeRow (writeRow u q) = rest.foldl writeRow u := by
  induction rest with
  | nil =>
    intro u q h
    obtain ⟨r, hr, _⟩ := h
    cases hr
  | cons r rr ih =>
    intro u q h
    rw [List.foldl_cons, List.foldl_cons]
    by_cases hid : r.getD 0 "" = q.getD 0 ""
    · rw [writeRow_same_id u q r hid]
    · obtain ⟨r', hr', heq⟩ := h
      rcases List.mem_cons.mp hr' with rfl | hmem
      · exact absurd heq hid
      · rw [writeRow_comm u q r (fun hqr => hid hqr.symm)]
        exact ih (writeRow u r) q ⟨r', hmem, heq⟩

lemma foldW_fixpoint (qs : List (List String)) :
    ∀ (t : List (List TableCell)),
      qs.foldl writeRow (qs.foldl addRowData t) = qs.foldl addRowData t := by
  induction qs with
  | nil => intro t; rfl
  | cons q rest ih =>
    intro t
    rw [List.foldl_cons, List.foldl_cons]
    by_cases hw : ∃ r ∈ rest, r.getD 0 "" = q.getD 0 ""
    · rw [foldW_absorb rest _ q hw]
      exact ih (addRowData t q)
    · have hnw : ∀ r ∈ rest, r.getD 0 "" ≠ q.getD 0 "" := by
        intro r hr heq
        exact hw ⟨r, hr, heq⟩
      have hv : vfm (rest.foldl addRowData (addRowData t q)) (q.getD 0 "")
          = some (rowCells q) := by
        rw [vfm_fold_nowrite rest (addRowData t q) _ hnw, vfm_addRowData_self]
      rw [writeRow_noop _ q hv]
      exact ih (addRowData t q)

/-- Replaying the same list of display rows a second time leaves the data
rows unchanged: every second-pass upsert finds its identifier and
overwrites the same cells in place. -/
lemma replay_idempotent (qs : List (List String)) (t : List (List TableCell)) :
    qs.foldl addRowData (qs.foldl addRowData t) = qs.foldl addRowData t := by
  rw [fold_eq_foldW qs (qs.foldl addRowData t)
    (fun q hq => hasID_fold_of_mem qs t q hq)]
  exact foldW_fixpoint qs t

lemma getD_append_len (A : List α) (x : α) (rest : List α) (d : α) :
    (A ++ x :: rest).getD A.length d = x := by
  induction A with
  | nil => rfl
  | cons y ys ih => simpa using ih

lemma set_append_len (A : List α) (x y : α) (rest : List α) :
    (A ++ x :: rest).set A.length y = A ++ y :: rest := by
  induction A with
  | nil => rfl
  | cons z zs ih => simp [ih]

lemma revLoopAux_spec (d : α) : ∀ (m : Nat) (A M B : List α),
    A.length = m → B.length = m →
    revLoopAux d (A ++ M ++ B) m = B.reverse ++ M ++ A.reverse := by
  intro m
  induction m with
  | zero =>
    intro A M B hA hB
    rw [List.length_eq_zero] at hA hB
    subst hA
    subst hB
    simp [revLoopAux]
  | succ m ih =>
    intro A M B hA hB
    rcases List.eq_nil_or_concat A with rfl | ⟨A', a, hAeq⟩
    · simp at hA
    have hAeq2 : A = A' ++ [a] := by simpa [List.concat_eq_append] using hAeq
    subst hAeq2
    cases B with
    | nil => simp at hB
    | cons b B' =>
      have hA' : A'.length = m := by
        simp at hA
        omega
      have hB' : B'.length = m := by
        simp at hB
        omega
      show revLoopAux d
          (swapIdx ((A' ++ [a]) ++ M ++ b :: B') m
            (((A' ++ [a]) ++ M ++ b :: B').length - 1 - m) d) m = _
      have hidx : ((A' ++ [a]) ++ M ++ b :: B').length - 1 - m
          = (A' ++ a :: M).length := by
        simp [hA', hB']
        omega
      have hswap : swapIdx ((A' ++ [a]) ++ M ++ b :: B') m
          (((A' ++ [a]) ++ M ++ b :: B').length - 1 - m) d
          = A' ++ (b :: (M ++ [a])) ++ B' := by
        rw [hidx]
        unfold swapIdx
        have e1 : (A' ++ [a]) ++ M ++ b :: B' = A' ++ a :: (M ++ b :: B') := by
          simp
        have e2 : (A' ++ [a]) ++ M ++ b :: B' = (A' ++ a :: M) ++ b :: B' := by
          simp
        have g1 : ((A' ++ [a]) ++ M ++ b :: B').getD (A' ++ a :: M).length d = b := by
          rw [e2, getD_append_len]
        have g2 : ((A' ++ [a]) ++ M ++ b :: B').getD m d = a := by
          rw [e1, ← hA', getD_append_len]
        rw [g1, g2]
        have s1 : ((A' ++ [a]) ++ M ++ b :: B').set m b = (A' ++ b :: M) ++ b :: B' := by
          rw [e1, ← hA', set_append_len]
          simp
        rw [s1]
        have hlen2 : (A' ++ a :: M).length = (A' ++ b :: M).length := by simp
        rw [hlen2, set_append_len]
        simp
      rw [hswap, ih A' (b :: (M ++ [a])) B' hA' hB']
      simp

lemma reverse_short (l : List α) (h : l.length ≤ 1) : l.reverse = l := by
  cases l with
  | nil => rfl
  | cons x xs =>
    cases xs with
    | nil => rfl
    | cons y ys => simp at h

lemma revLoop_eq_reverse (d : α) (l : List α) : revLoop d l = l.reverse := by
  have hk : l.length / 2 ≤ l.length := by omega
  have hsplit : l = l.take (l.length / 2) ++ l.drop (l.length / 2) :=
    (List.take_append_drop _ l).symm
  set k := l.length / 2 with hkdef
  set rest := l.drop k with hrest
  have hrlen : rest.length = l.length - k := by
    rw [hrest, List.length_drop]
  set M := rest.take (rest.length - k) with hM
  set B := rest.drop (rest.length - k) with hB
  have hrsplit : rest = M ++ B := (List.take_append_drop _ rest).symm
  have hAlen : (l.take k).length = k := by
    rw [List.length_take]
    omega
  have hBlen : B.length = k := by
    rw [hB, List.length_drop]
    omega
  have hMlen : M.length ≤ 1 := by
    rw [hM, List.length_take]
    omega
  have hl : l = l.take k ++ M ++ B := by
    rw [List.append_assoc, ← hrsplit, hrest]
    exact hsplit
  have hrev : revLoop d l = B.reverse ++ M ++ (l.take k).reverse := by
    unfold revLoop
    rw [show l.length / 2 = k from rfl]
    conv =>
      lhs
      rw [hl]
    exact revLoopAux_spec d k (l.take k) M B hAlen hBlen
  rw [hrev]
  have hMrev : M.reverse = M := reverse_short M hMlen
  conv =>
    rhs
    rw [hl]
  simp [hMrev]

lemma getQuakeList_fold_rows (l : List geoJsonFeature) :
    ∀ (st : Store) (acc : List (List String)),
      (l.foldl (fun a y => (storeInsert a.1 y.id y, a.2 ++ [rowOfFeature y])) (st, acc)).2
        = acc ++ l.map rowOfFeature := by
  induction l with
  | nil => intro st acc; simp
  | cons y ys ih =>
    intro st acc
    rw [List.foldl_cons, ih]
    simp

lemma getQuakeList_fold_store (l : List geoJsonFeature) :
    ∀ (st : Store) (acc : List (List String)),
      (l.foldl (fun a y => (storeInsert a.1 y.id y, a.2 ++ [rowOfFeature y])) (st, acc)).1
        = l.foldl (fun s y => storeInsert s y.id y) st := by
  induction l with
  | nil => intro st acc; rfl
  | cons y ys ih =>
    intro st acc
    rw [List.foldl_cons, List.foldl_cons, ih]

lemma getQuakeList_rows (st : Store) (data : geoJson) :
    (getQuakeList st data).2 = (data.features.reverse).map rowOfFeature := by
  unfold getQuakeList
  rw [revLoop_eq_reverse, getQuakeList_fold_rows]
  simp

lemma storeGet_foldInsert (l : List geoJsonFeature) :
    ∀ (st : Store) (i : String),
      storeGet (l.foldl (fun s y => storeInsert s y.id y) st) i
        = match l.reverse.find? (fun y => y.id == i) with
          | some f => some f
          | none => storeGet st i := by
  induction l with
  | nil => intro st i; rfl
  | cons y ys ih =>
    intro st i
    rw [List.foldl_cons, ih]
    rw [List.reverse_cons, List.find?_append]
    cases hfr : ys.reverse.find? (fun y => y.id == i) with
    | some f => simp [Option.or]
    | none =>
      simp only [Option.none_or]
      cases hby : (y.id == i) with
      | true =>
        have : i = y.id := (beq_iff_eq.mp hby).symm
        simp [List.find?, hby, storeGet, storeInsert, this]
      | false =>
        have hne : ¬ i = y.id := by
          intro he
          subst he
          simp at hby
        simp [List.find?, hby, storeGet, storeInsert, hne]

lemma storeGet_runCycle (st : Store) (snap : geoJson) (i : String) :
    storeGet (runCycle st snap) i
      = match snap.features.find? (fun y => y.id == i) with
        | some f => some f
        | none => storeGet st i := by
  unfold runCycle getQuakeList
  rw [getQuakeList_fold_store, revLoop_eq_reverse, storeGet_foldInsert,
    List.reverse_reverse]

lemma runCycles_not_reported (snaps : List geoJson) :
    ∀ (st : Store) (i : String), mostRecentFetched snaps i = none →
      storeGet (runCycles st snaps) i = storeGet st i := by
  induction snaps with
  | nil => intro st i _; rfl
  | cons s rest ih =>
    intro st i h
    unfold mostRecentFetched at h
    cases hm : mostRecentFetched rest i with
    | some f =>
      rw [hm] at h
      cases h
    | none =>
      rw [hm] at h
      have h2 : s.features.find? (fun y => y.id == i) = none := h
      show storeGet (runCycles (runCycle st s) rest) i = storeGet st i
      rw [ih (runCycle st s) i hm, storeGet_runCycle, h2]

lemma runCycles_latest (snaps : List geoJson) :
    ∀ (st : Store) (i : String) (f : geoJsonFeature),
      mostRecentFetched snaps i = some f →
      storeGet (runCycles st snaps) i = some f := by
  induction snaps with
  | nil => intro st i f h; cases h
  | cons s rest ih =>
    intro st i f h
    unfold mostRecentFetched at h
    cases hm : mostRecentFetched rest i with
    | some g =>
      rw [hm] at h
      have h2 : some g = some f := h
      injection h2 with h3
      subst h3
      exact ih (runCycle st s) i g hm
    | none =>
      rw [hm] at h
      have h2 : s.features.find? (fun y => y.id == i) = some f := h
      show storeGet (runCycles (runCycle st s) rest) i = some f
      rw [runCycles_not_reported rest (runCycle st s) i hm, storeGet_runCycle, h2]

lemma upsertScan_fresh (t : Table) (q : List String)
    (h : (q.getD 0 "") ∉ dataIDs t) :
    upsertScan t q =
      (match findIdxO (fun r => rowTimeLt r (qTimeVal q)) (t.drop 1) with
       | some j => j + 1
       | none => 1, false) := by
  have hfi : findIdxO (idIs (q.getD 0 "")) (t.drop 1) = none :=
    (findIdxO_id_none_iff _ _).mpr h
  unfold upsertScan
  rw [scan_none _ _ _ hfi 1 1]
  cases hft : findIdxO (fun r => rowTimeLt r (qTimeVal q)) (t.drop 1) with
  | none => rfl
  | some j =>
    show (1 + j, false) = (j + 1, false)
    rw [Nat.add_comm]

lemma rowTimeLt_fail (r : List TableCell) (q : List String)
    (h : parseGoTime (cellText r 1) = none) :
    rowTimeLt r (qTimeVal q) = false := by
  unfold rowTimeLt rowTimeVal
  rw [h]
  have hle : qTimeVal q ≤ failTimeVal := goTimeVal_parse_le (q.getD 1 "")
  simp only [goTimeVal, decide_eq_false_iff_not, Nat.not_lt]
  exact hle

lemma nodup_upsertAll_take (qs : List (List String)) :
    ∀ (n : Nat) (hr : List TableCell) (d : List (List TableCell)),
      (d.map idOfRow).Nodup →
      (dataIDs (upsertAll (hr :: d) (qs.take n))).Nodup := by
  induction qs with
  | nil =>
    intro n hr d hd
    rw [List.take_nil]
    exact hd
  | cons q rest ih =>
    intro n hr d hd
    cases n with
    | zero =>
      rw [List.take_zero]
      exact hd
    | succ n' =>
      rw [List.take_succ_cons]
      show (dataIDs (upsertAll (addRowT (hr :: d) q) (rest.take n'))).Nodup
      rw [addRowT_cons]
      exact ih n' hr (addRowData d q) (nodup_addRowData d q hd)

lemma GoFloat.leB_iff (a b : GoFloat) :
    GoFloat.leB a b = true ↔ GoFloat.val a ≤ GoFloat.val b := by
  unfold GoFloat.leB GoFloat.val
  rw [decide_eq_true_eq]
  rw [div_le_div_iff₀ (by positivity) (by positivity)]
  constructor
  · intro h
    have h2 : ((a.mantissa : ℚ) * 10 ^ b.shift) ≤ (b.mantissa : ℚ) * 10 ^ a.shift := by
      exact_mod_cast h
    linarith
  · intro h
    have h2 : ((a.mantissa : ℚ) * 10 ^ b.shift) ≤ (b.mantissa : ℚ) * 10 ^ a.shift := by
      linarith
    exact_mod_cast h2

lemma GoFloat.val_mk (n : Int) (k : Nat) :
    GoFloat.val ⟨n, k⟩ = (n : ℚ) / 10 ^ k := rfl

lemma val_four : GoFloat.val ⟨4, 0⟩ = 4 := by norm_num [GoFloat.val]

lemma val_six : GoFloat.val ⟨6, 0⟩ = 6 := by norm_num [GoFloat.val]

lemma val_seven : GoFloat.val ⟨7, 0⟩ = 7 := by norm_num [GoFloat.val]

lemma val_fiveNineNine : GoFloat.val ⟨599, 2⟩ = 599 / 100 := by
  norm_num [GoFloat.val]

lemma val_sixNineNine : GoFloat.val ⟨699, 2⟩ = 699 / 100 := by
  norm_num [GoFloat.val]

lemma rowCells_getD (q : List String) (col : Nat) (h : col < 5) :
    (rowCells q).getD col emptyCell
      = ⟨q.getD col "", cellColor (parseFloatGo (q.getD 2 "")) col,
          GoAlign.left, col == 0⟩ := by
  interval_cases col <;> rfl

lemma cellColor_id (m : GoFloat) : cellColor m 0 = GoColor.darkCyan := rfl

lemma leB_false_of_val_lt (a m : GoFloat) (h : GoFloat.val m < GoFloat.val a) :
    GoFloat.leB a m = false := by
  cases hb : GoFloat.leB a m
  · rfl
  · have := (GoFloat.leB_iff a m).mp hb
    linarith

lemma leB_false_of_val_lt' (a m : GoFloat) (h : GoFloat.val a < GoFloat.val m) :
    GoFloat.leB m a = false := by
  cases hb : GoFloat.leB m a
  · rfl
  · have := (GoFloat.leB_iff m a).mp hb
    linarith

lemma cellColor_green (m : GoFloat) (col : Nat) (h0 : col ≠ 0)
    (h : GoFloat.val m < 4) : cellColor m col = GoColor.green := by
  have h4 : GoFloat.leB ⟨4, 0⟩ m = false := by
    apply leB_false_of_val_lt
    rw [val_four]
    exact h
  have h6 : GoFloat.leB ⟨6, 0⟩ m = false := by
    apply leB_false_of_val_lt
    rw [val_six]
    linarith
  have h7 : GoFloat.leB ⟨7, 0⟩ m = false := by
    apply leB_false_of_val_lt
    rw [val_seven]
    linarith
  simp [cellColor, h0, h4, h6, h7]

lemma cellColor_yellow (m : GoFloat) (col : Nat) (h0 : col ≠ 0)
    (h1 : 4 ≤ GoFloat.val m) (h2 : GoFloat.val m ≤ 599 / 100) :
    cellColor m col = GoColor.yellow := by
  have ha : GoFloat.leB ⟨4, 0⟩ m = true := by
    rw [GoFloat.leB_iff, val_four]
    exact h1
  have hb : GoFloat.leB m ⟨599, 2⟩ = true := by
    rw [GoFloat.leB_iff, val_fiveNineNine]
    exact h2
  simp [cellColor, h0, ha, hb]

lemma cellColor_orange (m : GoFloat) (col : Nat) (h0 : col ≠ 0)
    (h1 : 6 ≤ GoFloat.val m) (h2 : GoFloat.val m ≤ 699 / 100) :
    cellColor m col = GoColor.orange := by
  have hb : GoFloat.leB m ⟨599, 2⟩ = false := by
    apply leB_false_of_val_lt'
    rw [val_fiveNineNine]
    linarith
  have hc : GoFloat.leB ⟨6, 0⟩ m = true := by
    rw [GoFloat.leB_iff, val_six]
    exact h1
  have hd : GoFloat.leB m ⟨699, 2⟩ = true := by
    rw [GoFloat.leB_iff, val_sixNineNine]
    exact h2
  simp [cellColor, h0, hb, hc, hd]

lemma cellColor_red (m : GoFloat) (col : Nat) (h0 : col ≠ 0)
    (h1 : 7 ≤ GoFloat.val m) : cellColor m col = GoColor.red := by
  have hb : GoFloat.leB m ⟨599, 2⟩ = false := by
    apply leB_false_of_val_lt'
    rw [val_fiveNineNine]
    linarith
  have hd : GoFloat.leB m ⟨699, 2⟩ = false := by
    apply leB_false_of_val_lt'
    rw [val_sixNineNine]
    linarith
  have he : GoFloat.leB ⟨7, 0⟩ m = true := by
    rw [GoFloat.leB_iff, val_seven]
    exact h1
  simp [cellColor, h0, hb, hd, he]

/-- Sample display row: identifier "ak001", Jan 2, magnitude 5.00. -/
def qrowA : List String := ["ak001", "Jan/02/10:00:00/UTC", "5.00", "Alaska", "x1"]

/-- Sample display row with an older timestamp than `qrowA`. -/
def qrowB : List String := ["ak002", "Jan/01/10:00:00/UTC", "5.00", "Hawaii", "x2"]

/-- Sample display row with a newer timestamp than `qrowA`. -/
def qrowC : List String := ["ak003", "Jan/03/10:00:00/UTC", "6.50", "Chile", "x3"]

/-- Re-report of `qrowA`'s event: same identifier and time, new magnitude. -/
def qrowA2 : List String := ["ak001", "Jan/02/10:00:00/UTC", "5.90", "Alaska", "x1"]

/-- Display row whose magnitude is 3.90. -/
def qrow39 : List String := ["ak004", "Jan/04/10:00:00/UTC", "3.90", "Utah", "x4"]

/-- Display row whose magnitude is 7.10. -/
def qrow71 : List String := ["ak005", "Jan/05/10:00:00/UTC", "7.10", "Japan", "x5"]

/-- A data row whose displayed timestamp does not parse. -/
def badTimeRow : List TableCell := rowCells ["zz99", "not-a-time", "1.00", "p", ""]

/-- Feature properties with the fields the claims exercise. -/
def sampleProps (mag : ℚ) (t : Int) (place ids : String) : geoJsonProperties :=
  ⟨mag, place, t, 0, 0, "", "", 0, 0, 0, "", "", 0, 0, "", "", ids, "", "", 0, 0, 0, 0, "", "", ""⟩

/-- First report of event "a". -/
def featA1 : geoJsonFeature :=
  ⟨"Feature", sampleProps 5 1700000000000 "X" "ids-a", ⟨"Point", []⟩, "a"⟩

/-- Later report of event "a": same identifier, revised magnitude. -/
def featA2 : geoJsonFeature :=
  ⟨"Feature", sampleProps 6 1700000000000 "X" "ids-a", ⟨"Point", []⟩, "a"⟩

/-- Feature with no auxiliary ids and fewer than 3 coordinates. -/
def featNoIds : geoJsonFeature :=
  ⟨"Feature", sampleProps 5 1700000000000 "Y" "", ⟨"Point", [1, 2]⟩, "b"⟩

/-- Empty feed metadata for sample snapshots. -/
def snapMeta : geoJsonMetadata := ⟨0, "", "", "", 0, 0⟩

/-- Snapshot reporting `featA1`. -/
def snap1 : geoJson := ⟨"FeatureCollection", snapMeta, [featA1]⟩

/-- Snapshot reporting `featA2`. -/
def snap2 : geoJson := ⟨"FeatureCollection", snapMeta, [featA2]⟩

/-- An empty decoded snapshot, for the fetch counterexample. -/
def emptyGeoJson : geoJson := ⟨"", snapMeta, []⟩

lemma addRowT_cases (t : Table) (q : List String) :
    addRowT t q = t.set (upsertScan t q).1 (rowCells q)
    ∨ addRowT t q = insertAt (upsertScan t q).1 (rowCells q) t := by
  have he : addRowT t q
      = (if (upsertScan t q).2 = true
         then t.set (upsertScan t q).1 (rowCells q)
         else insertAt (upsertScan t q).1 (rowCells q) t) := rfl
  by_cases hc : (upsertScan t q).2 = true
  · left
    rw [he, if_pos hc]
  · right
    rw [he, if_neg hc]

/-- C1 counterexample: the claim fails as stated.  Starting from the empty
table, upsert a row, then upsert a fresh row with an older timestamp: no
data row's time is strictly before the new row's, so `atRow` keeps its
initial value 1 and the row is inserted at the top, leaving the data rows
in increasing — not non-increasing — time order. -/
theorem C1_counterexample :
    ¬ sortedTable (upsertAll initialTable [qrowA, qrowB]) := by decide

/-- C1 (amended): for every sequence of upsert calls starting from the
empty table in which each call either matches an existing identifier while
carrying that row's timestamp, or is fresh with a timestamp at least as
new as every current data row (the shape every reconcile cycle produces),
the data rows are in non-increasing timestamp order after each call. -/
theorem C1_sorted_descending (qs : List (List String)) (n : Nat)
    (h : goodSeqB initialTable qs = true) :
    sortedTable (upsertAll initialTable (qs.take n)) :=
  sorted_upsertAll_take qs n headerRow [] (by simp) h

/-- C1 witness: a concrete two-call oldest-to-newest sequence satisfies the
precondition and the invariant holds after both calls. -/
theorem C1_sorted_descending_witness :
    goodSeqB initialTable [qrowA, qrowC] = true
    ∧ sortedTable (upsertAll initialTable (List.take 2 [qrowA, qrowC])) :=
  ⟨by decide, C1_sorted_descending [qrowA, qrowC] 2 (by decide)⟩

/-- C2 counterexample: the claim fails as stated.  With one data row
present (total table length 2) and a fresh row none of whose predecessors
are strictly before it, the bottom would be position 2, but the scan
returns position 1 (the top). -/
theorem C2_counterexample :
    (qrowB.getD 0 "") ∉ dataIDs (upsertAll initialTable [qrowA])
    ∧ (∀ r ∈ (upsertAll initialTable [qrowA]).drop 1,
        rowTimeLt r (qTimeVal qrowB) = false)
    ∧ (upsertScan (upsertAll initialTable [qrowA]) qrowB).1 = 1
    ∧ (upsertAll initialTable [qrowA]).length = 2 := by decide

/-- C2 (amended): for a fresh identifier the scan performs no update and
chooses position `j + 1` where `j` is the index of the first data row
whose timestamp is strictly before the new row's; if no data row is
strictly before, it chooses position 1, the top (which coincides with the
bottom only when the table has no data rows). -/
theorem C2_insert_position (t : Table) (q : List String)
    (h : (q.getD 0 "") ∉ dataIDs t) :
    (upsertScan t q).2 = false
    ∧ ((upsertScan t q).1
        = match findIdxO (fun r => rowTimeLt r (qTimeVal q)) (t.drop 1) with
          | some j => j + 1
          | none => 1)
    ∧ (∀ j, findIdxO (fun r => rowTimeLt r (qTimeVal q)) (t.drop 1) = some j →
        rowTimeLt ((t.drop 1).getD j []) (qTimeVal q) = true
        ∧ ∀ k, k < j → rowTimeLt ((t.drop 1).getD k []) (qTimeVal q) = false) := by
  refine ⟨?_, ?_, ?_⟩
  · rw [upsertScan_fresh t q h]
  · rw [upsertScan_fresh t q h]
  · intro j hj
    exact ⟨(findIdxO_some_getD _ _ j [] hj).1,
      fun k hk => findIdxO_some_prefix _ _ j k [] hj hk⟩

/-- C2 witness: a fresh row newer than the single data row present is
assigned position 1, the first row strictly before it being at index 0. -/
theorem C2_insert_position_witness :
    (qrowC.getD 0 "") ∉ dataIDs (upsertAll initialTable [qrowA])
    ∧ ((upsertScan (upsertAll initialTable [qrowA]) qrowC).2 = false
      ∧ ((upsertScan (upsertAll initialTable [qrowA]) qrowC).1
          = match findIdxO (fun r => rowTimeLt r (qTimeVal qrowC))
              ((upsertAll initialTable [qrowA]).drop 1) with
            | some j => j + 1
            | none => 1)
      ∧ (∀ j, findIdxO (fun r => rowTimeLt r (qTimeVal qrowC))
            ((upsertAll initialTable [qrowA]).drop 1) = some j →
          rowTimeLt (((upsertAll initialTable [qrowA]).drop 1).getD j [])
              (qTimeVal qrowC) = true
          ∧ ∀ k, k < j →
              rowTimeLt (((upsertAll initialTable [qrowA]).drop 1).getD k [])
                (qTimeVal qrowC) = false)) :=
  ⟨by decide, C2_insert_position (upsertAll initialTable [qrowA]) qrowC (by decide)⟩

/-- C3: starting from the empty table, after any prefix of any sequence of
upserts the data-row identifiers are pairwise distinct; an upsert whose
identifier is present overwrites in place (row count and identifier layout
unchanged), and a fresh upsert adds exactly one row. -/
theorem C3_one_row_per_id :
    (∀ (qs : List (List String)) (n : Nat),
      (dataIDs (upsertAll initialTable (qs.take n))).Nodup)
    ∧ (∀ (t : Table) (q : List String), (q.getD 0 "") ∈ dataIDs t →
        (addRowT t q).length = t.length ∧ dataIDs (addRowT t q) = dataIDs t)
    ∧ (∀ (t : Table) (q : List String), (q.getD 0 "") ∉ dataIDs t →
        (addRowT t q).length = t.length + 1) := by
  refine ⟨?_, ?_, ?_⟩
  · intro qs n
    exact nodup_upsertAll_take qs n headerRow [] (by simp)
  · intro t q hmem
    cases t with
    | nil => simp [dataIDs] at hmem
    | cons hr d =>
      have hmem' : (q.getD 0 "") ∈ d.map idOfRow := hmem
      rw [addRowT_cons]
      constructor
      · show (addRowData d q).length + 1 = d.length + 1
        rw [length_addRowData, if_pos hmem']
      · show (addRowData d q).map idOfRow = d.map idOfRow
        rw [map_idOfRow_addRowData, if_pos hmem']
  · intro t q hmem
    cases t with
    | nil => rfl
    | cons hr d =>
      have hmem' : (q.getD 0 "") ∉ d.map idOfRow := hmem
      rw [addRowT_cons]
      show (addRowData d q).length + 1 = d.length + 1 + 1
      rw [length_addRowData, if_neg hmem']

/-- C3 witness: concrete instances of all three parts. -/
theorem C3_one_row_per_id_witness :
    (dataIDs (upsertAll initialTable (List.take 2 [qrowA, qrowC]))).Nodup
    ∧ ((addRowT (upsertAll initialTable [qrowA, qrowC]) qrowA2).length
        = (upsertAll initialTable [qrowA, qrowC]).length
      ∧ dataIDs (addRowT (upsertAll initialTable [qrowA, qrowC]) qrowA2)
        = dataIDs (upsertAll initialTable [qrowA, qrowC]))
    ∧ (addRowT (upsertAll initialTable [qrowA, qrowC]) qrowB).length
        = (upsertAll initialTable [qrowA, qrowC]).length + 1 :=
  ⟨C3_one_row_per_id.1 [qrowA, qrowC] 2,
   C3_one_row_per_id.2.1 (upsertAll initialTable [qrowA, qrowC]) qrowA2 (by decide),
   C3_one_row_per_id.2.2 (upsertAll initialTable [qrowA, qrowC]) qrowB (by decide)⟩

/-- C4: the reversal loop of `getQuakeList` is an exact list reversal, and
the returned display rows are exactly one `rowOfFeature` per feature, in
the reversed (oldest-to-newest for a newest-first feed) order. -/
theorem C4_reverse_and_rows (st : Store) (data : geoJson) :
    revLoop defaultFeature data.features = data.features.reverse
    ∧ (getQuakeList st data).2 = (data.features.reverse).map rowOfFeature :=
  ⟨revLoop_eq_reverse defaultFeature data.features, getQuakeList_rows st data⟩

/-- C5: after any sequence of reconcile cycles, the store entry of an
identifier equals the most recently fetched feature bearing it; the entry
is overwritten unconditionally on every cycle reporting the identifier
(the starting store is arbitrary, so a cycle overwrites even an identical
existing entry). -/
theorem C5_store_latest (snaps : List geoJson) (st : Store) (i : String)
    (f : geoJsonFeature) (h : mostRecentFetched snaps i = some f) :
    storeGet (runCycles st snaps) i = some f :=
  runCycles_latest snaps st i f h

/-- C5 witness: two cycles report "a"; the store ends with the second
cycle's feature. -/
theorem C5_store_latest_witness :
    mostRecentFetched [snap1, snap2] "a" = some featA2
    ∧ storeGet (runCycles emptyStore [snap1, snap2]) "a" = some featA2 :=
  ⟨by decide, C5_store_latest [snap1, snap2] emptyStore "a" featA2 (by decide)⟩

/-- C6: re-applying one reconciliation's display rows a second time leaves
the table identical: every second-pass row finds its identifier already
present and overwrites the same cells in place.  The table is any state
with the reserved header at row 0 (`hr :: d`). -/
theorem C6_reconcile_idempotent (snap : geoJson) (st : Store)
    (hr : List TableCell) (d : List (List TableCell)) :
    upsertAll (upsertAll (hr :: d) (getQuakeList st snap).2) (getQuakeList st snap).2
      = upsertAll (hr :: d) (getQuakeList st snap).2 := by
  rw [upsertAll_cons, upsertAll_cons, replay_idempotent]

/-- C7: the row `addRow` writes (whether updating in place or inserting)
is `rowCells`; within it the identifier column is dark cyan, and every
other column's color follows the magnitude bands: green below 4.0, yellow
on [4.0, 5.99], orange on [6.0, 6.99], red at 7.0 and above. -/
theorem C7_severity_colors (t : Table) (q : List String) (col : Nat) :
    (addRowT t q = t.set (upsertScan t q).1 (rowCells q)
      ∨ addRowT t q = insertAt (upsertScan t q).1 (rowCells q) t)
    ∧ ((rowCells q).getD 0 emptyCell).color = GoColor.darkCyan
    ∧ (col ≠ 0 → col < 5 →
        ((GoFloat.val (parseFloatGo (q.getD 2 "")) < 4 →
            ((rowCells q).getD col emptyCell).color = GoColor.green)
        ∧ (4 ≤ GoFloat.val (parseFloatGo (q.getD 2 ""))
            ∧ GoFloat.val (parseFloatGo (q.getD 2 "")) ≤ 599 / 100 →
            ((rowCells q).getD col emptyCell).color = GoColor.yellow)
        ∧ (6 ≤ GoFloat.val (parseFloatGo (q.getD 2 ""))
            ∧ GoFloat.val (parseFloatGo (q.getD 2 "")) ≤ 699 / 100 →
            ((rowCells q).getD col emptyCell).color = GoColor.orange)
        ∧ (7 ≤ GoFloat.val (parseFloatGo (q.getD 2 "")) →
            ((rowCells q).getD col emptyCell).color = GoColor.red))) := by
  refine ⟨addRowT_cases t q, ?_, ?_⟩
  · rw [rowCells_getD q 0 (by norm_num)]
    rfl
  · intro h0 h5
    rw [rowCells_getD q col h5]
    exact ⟨fun h => cellColor_green _ col h0 h,
      fun h => cellColor_yellow _ col h0 h.1 h.2,
      fun h => cellColor_orange _ col h0 h.1 h.2,
      fun h => cellColor_red _ col h0 h⟩

/-- C7 witness: magnitude 6.50 renders orange, 3.90 green, 7.10 red, and
the identifier column dark cyan, at concrete rows and column 2. -/
theorem C7_severity_colors_witness :
    ((rowCells qrowC).getD 2 emptyCell).color = GoColor.orange
    ∧ ((rowCells qrow39).getD 2 emptyCell).color = GoColor.green
    ∧ ((rowCells qrow71).getD 2 emptyCell).color = GoColor.red
    ∧ ((rowCells qrowC).getD 0 emptyCell).color = GoColor.darkCyan := by
  refine ⟨?_, ?_, ?_, ?_⟩
  · refine (((C7_severity_colors initialTable qrowC 2).2.2 (by decide) (by decide)).2.2.1) ⟨?_, ?_⟩
    · rw [show parseFloatGo (qrowC.getD 2 "") = ⟨650, 2⟩ from by decide, GoFloat.val_mk]
      norm_num
    · rw [show parseFloatGo (qrowC.getD 2 "") = ⟨650, 2⟩ from by decide, GoFloat.val_mk]
      norm_num
  · refine (((C7_severity_colors initialTable qrow39 2).2.2 (by decide) (by decide)).1) ?_
    rw [show parseFloatGo (qrow39.getD 2 "") = ⟨390, 2⟩ from by decide, GoFloat.val_mk]
    norm_num
  · refine (((C7_severity_colors initialTable qrow71 2).2.2 (by decide) (by decide)).2.2.2) ?_
    rw [show parseFloatGo (qrow71.getD 2 "") = ⟨710, 2⟩ from by decide, GoFloat.val_mk]
    norm_num
  · exact (C7_severity_colors initialTable qrowC 0).2.1

/-- C8: a data row whose displayed timestamp fails to parse is treated as
"not strictly before" any upserted row's time (the failed parse is Go's
zero time in year 1, later than every parsed time), so the positional scan
never selects such a row on the strictly-before test; the model is total,
so no crash is possible. -/
theorem C8_unparsable_times :
    (∀ (r : List TableCell) (q : List String),
      parseGoTime (cellText r 1) = none → rowTimeLt r (qTimeVal q) = false)
    ∧ (∀ (t : Table) (q : List String) (j : Nat),
        parseGoTime (cellText ((t.drop 1).getD j []) 1) = none →
        findIdxO (fun r => rowTimeLt r (qTimeVal q)) (t.drop 1) ≠ some j) := by
  constructor
  · exact fun r q h => rowTimeLt_fail r q h
  · intro t q j hparse hfi
    have := (findIdxO_some_getD _ (t.drop 1) j [] hfi).1
    rw [rowTimeLt_fail _ q hparse] at this
    cases this

/-- C8 witness: a concrete row with an unparsable time cell is not
"before" a parsed quake time and is never chosen by the positional scan. -/
theorem C8_unparsable_times_witness :
    parseGoTime (cellText badTimeRow 1) = none
    ∧ rowTimeLt badTimeRow (qTimeVal qrowA) = false
    ∧ findIdxO (fun r => rowTimeLt r (qTimeVal qrowA))
        (([headerRow, badTimeRow] : Table).drop 1) ≠ some 0 :=
  ⟨by decide, C8_unparsable_times.1 badTimeRow qrowA (by decide),
   C8_unparsable_times.2 [headerRow, badTimeRow] qrowA 0 (by decide)⟩

/-- C9 counterexample: the claim fails as stated.  When `http.Get`
succeeds, reading the body reports an error that the source discards, and
the bytes read so far still unmarshal, the function returns successfully
even though the transport failed — the stated "if and only if" is false at
this input. -/
theorem C9_counterexample :
    ¬ (((getUsgsGeoStats Unit (Except.ok ())
          (fun _ => ([], some "connection reset during body read"))
          (fun _ => Except.ok emptyGeoJson)).isPanic = true)
        ↔ (specTransportOrDecodeFails Unit (Except.ok ())
            (fun _ => ([], some "connection reset during body read"))
            (fun _ => Except.ok emptyGeoJson) = true)) := by decide

/-- C9 (amended): `getUsgsGeoStats` panics if and only if the `http.Get`
call itself fails or unmarshalling the bytes read fails; an error reported
while reading the body is discarded (the source overwrites `err` without
checking it) and never panics by itself; on success the decoded snapshot
is returned, with no retry — the model performs exactly one fetch. -/
theorem C9_panic_iff (β : Type) (resp : Except String β)
    (readAll : β → List Nat × Option String)
    (unmarshal : List Nat → Except String geoJson) :
    ((getUsgsGeoStats β resp readAll unmarshal).isPanic = true
      ↔ (exceptErr resp = true
          ∨ ∃ r, resp = Except.ok r ∧ exceptErr (unmarshal (readAll r).1) = true))
    ∧ (∀ j : geoJson, getUsgsGeoStats β resp readAll unmarshal = GoResult.ok j
        ↔ ∃ r, resp = Except.ok r ∧ unmarshal (readAll r).1 = Except.ok j) := by
  cases resp with
  | error e =>
    constructor
    · simp [getUsgsGeoStats, GoResult.isPanic, exceptErr]
    · intro j
      simp [getUsgsGeoStats]
  | ok r =>
    constructor
    · cases hu : unmarshal (readAll r).1 with
      | error e => simp [getUsgsGeoStats, hu, GoResult.isPanic, exceptErr]
      | ok j => simp [getUsgsGeoStats, hu, GoResult.isPanic, exceptErr]
    · intro j
      cases hu : unmarshal (readAll r).1 with
      | error e => simp [getUsgsGeoStats, hu]
      | ok j' => simp [getUsgsGeoStats, hu]

/-- C10: building a display row never reads the geometry coordinates (the
coordinates column of the legacy variant is commented out), so features
with fewer than 3 coordinates cannot crash row construction; a feature
whose auxiliary `ids` field is absent (Go zero value, the empty string)
yields the empty string in the auxiliary-ids column. -/
theorem C10_row_formatting_safe (f : geoJsonFeature) :
    rowOfFeature f = rowOfFeature { f with geometry := ⟨f.geometry.typ, []⟩ }
    ∧ (f.properties.ids = "" → (rowOfFeature f).getD 4 "" = "") := by
  constructor
  · rfl
  · intro h
    exact h

/-- C10 witness: a concrete feature with two coordinates and no `ids`
renders the same row as its geometry-stripped copy, with an empty
auxiliary-ids column. -/
theorem C10_row_formatting_safe_witness :
    rowOfFeature featNoIds
      = rowOfFeature { featNoIds with geometry := ⟨featNoIds.geometry.typ, []⟩ }
    ∧ (rowOfFeature featNoIds).getD 4 "" = "" :=
  ⟨(C10_row_formatting_safe featNoIds).1,
   (C10_row_formatting_safe featNoIds).2 rfl⟩
